import Mathlib

/-!
Verification development for the confluence-adf MCP server (`server.py`).

The Python source operates on JSON values (nested dicts/lists) parsed from
Atlassian Document Format (ADF) bodies.  We embed JSON values as a mutual
inductive (`JVal`/`JList`/`JObj`, objects as insertion-ordered association
lists, mirroring Python dict ordering), Python `str` primitives as functions
on `List Char`/`String`, and each relevant function of `server.py` as a Lean
function over this embedding.  Numbers are embedded as `Int` (no float
attribute takes part in any of the verified behaviour).
-/

namespace ConfluenceAdf

/-! ## Python string primitives

Python semantics we rely on: `sub in s` is substring containment and is
`True` for `sub == ""`; `s.count(sub)` counts non-overlapping occurrences
left to right and returns `len(s) + 1` for `sub == ""`; `s.replace(f, r)`
replaces all non-overlapping occurrences left to right, and for `f == ""`
inserts `r` at every character boundary; `s.replace(f, r, 1)` replaces only
the first occurrence.  `s.strip()` trims whitespace from both ends. -/

def pyWsChars : List Char := [' ', '\t', '\n', '\r', '\x0b', '\x0c']

def isPyWs (c : Char) : Bool := pyWsChars.contains c

def pyStripL (s : List Char) : List Char :=
  ((s.dropWhile isPyWs).reverse.dropWhile isPyWs).reverse

/-- Python `s.strip()` (ASCII whitespace; exotic Unicode whitespace does not
occur in any behaviour verified here). -/
def pyStrip (s : String) : String := String.mk (pyStripL s.data)

/-- Python `find in s` (substring containment; `"" in s` is `True`). -/
def strInL (find : List Char) : List Char → Bool
  | [] => find.isEmpty
  | c :: rest => find.isPrefixOf (c :: rest) || strInL find rest

def strIn (find s : String) : Bool := strInL find.data s.data

/-- Worker for Python `s.count(sub)` with a non-empty `sub = f :: fs`. -/
def pyCountNE (f : Char) (fs : List Char) : List Char → Nat
  | [] => 0
  | c :: rest =>
    if (f :: fs).isPrefixOf (c :: rest) then 1 + pyCountNE f fs (rest.drop fs.length)
    else pyCountNE f fs rest
termination_by s => s.length
decreasing_by
  · simp only [List.length_cons, List.length_drop]
    omega
  · simp only [List.length_cons]
    omega

/-- Python `s.count(sub)`; `s.count("") == len(s) + 1`. -/
def pyCountL (find s : List Char) : Nat :=
  match find with
  | [] => s.length + 1
  | f :: fs => pyCountNE f fs s

def pyCount (find s : String) : Nat := pyCountL find.data s.data

/-- Worker for Python `s.replace(f, r)` with non-empty `f`. -/
def pyReplaceNE (f : Char) (fs r : List Char) : List Char → List Char
  | [] => []
  | c :: rest =>
    if (f :: fs).isPrefixOf (c :: rest) then r ++ pyReplaceNE f fs r (rest.drop fs.length)
    else c :: pyReplaceNE f fs r rest
termination_by s => s.length
decreasing_by
  · simp only [List.length_cons, List.length_drop]
    omega
  · simp only [List.length_cons]
    omega

/-- Python `s.replace(f, r)`; for `f == ""` the replacement is inserted at
every character boundary (`"ab".replace("", "x") == "xaxbx"`). -/
def pyReplaceL (find r s : List Char) : List Char :=
  match find with
  | [] => r ++ (s.map (fun c => c :: r)).flatten
  | f :: fs => pyReplaceNE f fs r s

def pyReplace (find r s : String) : String := String.mk (pyReplaceL find.data r.data s.data)

/-- Worker for Python `s.replace(f, r, 1)` with non-empty `f`. -/
def pyReplace1NE (f : Char) (fs r : List Char) : List Char → List Char
  | [] => []
  | c :: rest =>
    if (f :: fs).isPrefixOf (c :: rest) then r ++ rest.drop fs.length
    else c :: pyReplace1NE f fs r rest

/-- Python `s.replace(f, r, 1)`; `"ab".replace("", "x", 1) == "xab"`. -/
def pyReplace1L (find r s : List Char) : List Char :=
  match find with
  | [] => r ++ s
  | f :: fs => pyReplace1NE f fs r s

def pyReplace1 (find r s : String) : String :=
  String.mk (pyReplace1L find.data r.data s.data)

/-- Python `s.lower()` (ASCII case folding, which matches Python on every
string in the verified behaviour). -/
def pyLower (s : String) : String := String.mk (s.data.map Char.toLower)

/-! ## JSON embedding -/

mutual

/-- A parsed JSON value, as produced by Python `json.loads`. -/
inductive JVal where
  | null : JVal
  | bool (b : Bool) : JVal
  | num (n : Int) : JVal
  | str (s : String) : JVal
  | arr (items : JList) : JVal
  | obj (fields : JObj) : JVal

/-- A JSON array (Python list). -/
inductive JList where
  | nil : JList
  | cons (hd : JVal) (tl : JList) : JList

/-- A JSON object (Python dict), keys in insertion order. -/
inductive JObj where
  | nil : JObj
  | cons (key : String) (val : JVal) (tl : JObj) : JObj

end

deriving instance DecidableEq for JVal
deriving instance DecidableEq for JList
deriving instance DecidableEq for JObj

/-- Python `d.get(key)` / `d[key]` lookup. -/
def JObj.find : JObj → String → Option JVal
  | .nil, _ => none
  | .cons k v t, key => if k = key then some v else JObj.find t key

/-- Python `d[key] = v`: overwrite in place if the key exists, else append. -/
def JObj.set : JObj → String → JVal → JObj
  | .nil, key, v => .cons key v .nil
  | .cons k w t, key, v =>
    if k = key then .cons k v t else .cons k w (JObj.set t key v)

/-- Python `key in d`. -/
def JObj.hasKey (o : JObj) (key : String) : Bool := (o.find key).isSome

def JList.toList : JList → List JVal
  | .nil => []
  | .cons v t => v :: JList.toList t

def JList.ofList : List JVal → JList
  | [] => .nil
  | v :: t => .cons v (JList.ofList t)

/-- Python `node.get("type") == t` (missing or non-string type compares
unequal to every string). -/
def typeIs (o : JObj) (t : String) : Bool := o.find "type" == some (.str t)

/-! ## A size measure for tree recursion

The Python walkers iterate `node.values()` after possibly overwriting the
node's `"text"` field in place, so the recursion is over the mutated object.
`msize` counts constructors while ignoring string payloads, so overwriting a
string-valued field preserves it; it serves as the termination measure. -/

mutual

def msizeV : JVal → Nat
  | .obj o => 1 + msizeO o
  | .arr l => 1 + msizeL l
  | _ => 1

def msizeL : JList → Nat
  | .nil => 1
  | .cons v t => 1 + msizeV v + msizeL t

def msizeO : JObj → Nat
  | .nil => 1
  | .cons _ v t => 1 + msizeV v + msizeO t

end

theorem msizeV_pos (v : JVal) : 0 < msizeV v := by
  cases v <;> simp [msizeV]

theorem msizeL_pos (l : JList) : 0 < msizeL l := by
  cases l <;> simp [msizeL]

theorem msizeO_pos (o : JObj) : 0 < msizeO o := by
  cases o <;> simp [msizeO]

theorem msizeO_set_str (o : JObj) (k s x : String) (h : o.find k = some (.str s)) :
    msizeO (o.set k (.str x)) = msizeO o := by
  match o with
  | .nil => simp [JObj.find] at h
  | .cons k2 v t =>
    by_cases hk : k2 = k
    · subst hk
      simp [JObj.find] at h
      subst h
      simp [JObj.set, msizeO, msizeV]
    · simp [JObj.find, hk] at h
      simp [JObj.set, hk, msizeO, msizeO_set_str t k s x h]
termination_by sizeOf o

theorem find_msize (o : JObj) (k : String) (v : JVal) (h : o.find k = some v) :
    msizeV v < msizeO o := by
  match o with
  | .nil => simp [JObj.find] at h
  | .cons k2 w t =>
    by_cases hk : k2 = k
    · subst hk
      simp [JObj.find] at h
      subst h
      simp [msizeO]
      omega
    · simp [JObj.find, hk] at h
      have := find_msize t k v h
      simp [msizeO]
      omega
termination_by sizeOf o

/-! ## Substring replace (the `_replace_text` closures)

`confluence_edit_page` and `confluence_find_replace` each define a recursive
closure `_replace_text` over the parsed ADF with nonlocal counters.  The two
closures act identically on the tree and on `count` (the first also tracks
`found`, but its guard `elif not found or count == 0` runs right after
`found = True`, so it is equivalent to `elif count == 0`, which is the
second closure's guard).  We model both with one function threading
`(count, found)` through a depth-first walk over every dict value and list
item; `confluence_find_replace` simply ignores the `found` component.

A dict is a text node when `node.get("type") == "text"` and it has a
`"text"` key; Python would raise `TypeError` on a non-string `"text"` value
(impossible in parsed ADF), which we model as a skip. -/

/-- The in-place text-field update performed on one dict before its values
are traversed. -/
def textStep (find repl : String) (all : Bool) (o : JObj) (count : Nat) (found : Bool) :
    JObj × Nat × Bool :=
  if typeIs o "text" then
    match o.find "text" with
    | some (.str s) =>
      if strIn find s then
        if all then
          (o.set "text" (.str (pyReplace find repl s)), count + pyCount find s, true)
        else if count = 0 then
          (o.set "text" (.str (pyReplace1 find repl s)), 1, true)
        else (o, count, true)
      else (o, count, found)
    | some _ => (o, count, found)
    | none => (o, count, found)
  else (o, count, found)

theorem textStep_msize (find repl : String) (all : Bool) (o : JObj) (c : Nat) (f : Bool) :
    msizeO (textStep find repl all o c f).1 = msizeO o := by
  unfold textStep
  by_cases ht : typeIs o "text" = true
  · simp only [ht, if_true]
    cases h : o.find "text" with
    | none => simp
    | some v =>
      cases v with
      | str s =>
        by_cases hin : strIn find s = true
        · by_cases hall : all = true
          · simp [hin, hall, msizeO_set_str o "text" s _ h]
          · by_cases hc : c = 0
            · simp [hin, hall, hc, msizeO_set_str o "text" s _ h]
            · simp [hin, hall, hc]
        · simp [hin]
      | null => simp
      | bool b => simp
      | num n => simp
      | arr l => simp
      | obj p => simp
  · simp [ht]

mutual

/-- `_replace_text` on a JSON value, threading the nonlocal `count`/`found`. -/
def replaceTextV (find repl : String) (all : Bool) : JVal → Nat → Bool → JVal × Nat × Bool
  | .obj o, count, found =>
    let s0 := textStep find repl all o count found
    let s1 := replaceTextO find repl all s0.1 s0.2.1 s0.2.2
    (.obj s1.1, s1.2)
  | .arr l, count, found =>
    let s1 := replaceTextL find repl all l count found
    (.arr s1.1, s1.2)
  | v, count, found => (v, count, found)
termination_by v _ _ => msizeV v
decreasing_by
  all_goals simp [textStep_msize, msizeV]

/-- `_replace_text` over the items of a list, in order. -/
def replaceTextL (find repl : String) (all : Bool) : JList → Nat → Bool → JList × Nat × Bool
  | .nil, count, found => (.nil, count, found)
  | .cons v t, count, found =>
    let s1 := replaceTextV find repl all v count found
    let s2 := replaceTextL find repl all t s1.2.1 s1.2.2
    (.cons s1.1 s2.1, s2.2)
termination_by l _ _ => msizeL l
decreasing_by
  all_goals simp [msizeL]
  all_goals omega

/-- `_replace_text` over `node.values()`, in insertion order. -/
def replaceTextO (find repl : String) (all : Bool) : JObj → Nat → Bool → JObj × Nat × Bool
  | .nil, count, found => (.nil, count, found)
  | .cons k v t, count, found =>
    let s1 := replaceTextV find repl all v count found
    let s2 := replaceTextO find repl all t s1.2.1 s1.2.2
    (.cons k s1.1 s2.1, s2.2)
termination_by o _ _ => msizeO o
decreasing_by
  all_goals simp [msizeO]
  all_goals omega

end

/-! ## Specification views of the replace walk

`textsV` lists the `"text"` payloads of the text nodes in the order the walk
visits them; `mapTextsV` applies a function to every text payload;
`firstTextV?` rewrites only the first matching text node (`none` when no
text node contains `find`).  These are the yardsticks the `_replace_text`
walk is measured against. -/

/-- The text payload a dict contributes (one string if it is a text node). -/
def textPayload (o : JObj) : List String :=
  if typeIs o "text" then
    match o.find "text" with
    | some (.str s) => [s]
    | _ => []
  else []

mutual

def textsV : JVal → List String
  | .obj o => textPayload o ++ textsO o
  | .arr l => textsL l
  | _ => []
termination_by v => msizeV v
decreasing_by all_goals simp [msizeV]

def textsL : JList → List String
  | .nil => []
  | .cons v t => textsV v ++ textsL t
termination_by l => msizeL l
decreasing_by
  all_goals simp [msizeL]
  all_goals omega

def textsO : JObj → List String
  | .nil => []
  | .cons _ v t => textsV v ++ textsO t
termination_by o => msizeO o
decreasing_by
  all_goals simp [msizeO]
  all_goals omega

end

/-- The edit a text-payload map performs on a single dict. -/
def mapTextStep (g : String → String) (o : JObj) : JObj :=
  if typeIs o "text" then
    match o.find "text" with
    | some (.str s) => o.set "text" (.str (g s))
    | _ => o
  else o

theorem mapTextStep_msize (g : String → String) (o : JObj) :
    msizeO (mapTextStep g o) = msizeO o := by
  unfold mapTextStep
  by_cases ht : typeIs o "text" = true
  · simp only [ht, if_true]
    cases h : o.find "text" with
    | none => simp
    | some v =>
      cases v with
      | str s => simp [msizeO_set_str o "text" s _ h]
      | null => simp
      | bool b => simp
      | num n => simp
      | arr l => simp
      | obj p => simp
  · simp [ht]

mutual

/-- Apply `g` to every text payload, leaving everything else untouched. -/
def mapTextsV (g : String → String) : JVal → JVal
  | .obj o => .obj (mapTextsO g (mapTextStep g o))
  | .arr l => .arr (mapTextsL g l)
  | v => v
termination_by v => msizeV v
decreasing_by all_goals simp [mapTextStep_msize, msizeV]

def mapTextsL (g : String → String) : JList → JList
  | .nil => .nil
  | .cons v t => .cons (mapTextsV g v) (mapTextsL g t)
termination_by l => msizeL l
decreasing_by
  all_goals simp [msizeL]
  all_goals omega

def mapTextsO (g : String → String) : JObj → JObj
  | .nil => .nil
  | .cons k v t => .cons k (mapTextsV g v) (mapTextsO g t)
termination_by o => msizeO o
decreasing_by
  all_goals simp [msizeO]
  all_goals omega

end

/-- The rewrite a first-match replace performs on a single dict, when that
dict is the matching text node. -/
def matchStep? (find repl : String) (o : JObj) : Option JObj :=
  if typeIs o "text" then
    match o.find "text" with
    | some (.str s) =>
      if strIn find s then some (o.set "text" (.str (pyReplace1 find repl s))) else none
    | _ => none
  else none

mutual

/-- Rewrite only the first matching text node in walk order (`none` when no
text node contains `find`). -/
def firstTextV? (find repl : String) : JVal → Option JVal
  | .obj o =>
    match matchStep? find repl o with
    | some o2 => some (.obj o2)
    | none => (firstTextO? find repl o).map JVal.obj
  | .arr l => (firstTextL? find repl l).map JVal.arr
  | _ => none
termination_by v => msizeV v
decreasing_by
  all_goals simp [msizeV]

def firstTextL? (find repl : String) : JList → Option JList
  | .nil => none
  | .cons v t =>
    match firstTextV? find repl v with
    | some v2 => some (.cons v2 t)
    | none => (firstTextL? find repl t).map (JList.cons v)
termination_by l => msizeL l
decreasing_by
  all_goals simp [msizeL]
  all_goals omega

def firstTextO? (find repl : String) : JObj → Option JObj
  | .nil => none
  | .cons k v t =>
    match firstTextV? find repl v with
    | some v2 => some (.cons k v2 t)
    | none => (firstTextO? find repl t).map (JObj.cons k v)
termination_by o => msizeO o
decreasing_by
  all_goals simp [msizeO]
  all_goals omega

end

/-! ## Supporting lemmas -/

theorem strInL_nil (s : List Char) : strInL [] s = true := by
  cases s <;> simp [strInL]

theorem pyCountNE_of_not_in (f : Char) (fs s : List Char)
    (h : strInL (f :: fs) s = false) : pyCountNE f fs s = 0 := by
  match s with
  | [] => simp [pyCountNE]
  | c :: rest =>
    simp only [strInL, Bool.or_eq_false_iff] at h
    rw [pyCountNE]
    simp only [h.1, if_false]
    exact pyCountNE_of_not_in f fs rest h.2
termination_by s.length

theorem pyReplaceNE_of_not_in (f : Char) (fs r s : List Char)
    (h : strInL (f :: fs) s = false) : pyReplaceNE f fs r s = s := by
  match s with
  | [] => simp [pyReplaceNE]
  | c :: rest =>
    simp only [strInL, Bool.or_eq_false_iff] at h
    rw [pyReplaceNE]
    simp [h.1, pyReplaceNE_of_not_in f fs r rest h.2]
termination_by s.length

theorem pyCount_of_not_in (find s : String) (h : strIn find s = false) :
    pyCount find s = 0 := by
  unfold strIn at h
  unfold pyCount pyCountL
  cases hf : find.data with
  | nil => rw [hf, strInL_nil] at h; cases h
  | cons f fs =>
    rw [hf] at h
    exact pyCountNE_of_not_in f fs s.data h

theorem pyReplace_of_not_in (find r s : String) (h : strIn find s = false) :
    pyReplace find r s = s := by
  unfold strIn at h
  unfold pyReplace pyReplaceL
  cases hf : find.data with
  | nil => rw [hf, strInL_nil] at h; cases h
  | cons f fs =>
    rw [hf] at h
    show String.mk (pyReplaceNE f fs r.data s.data) = s
    rw [pyReplaceNE_of_not_in f fs r.data s.data h]

theorem JObj_set_cons_self (k : String) (v w : JVal) (t : JObj) :
    (JObj.cons k v t).set k w = .cons k w t := by
  simp [JObj.set]

/-- Overwriting a string-valued field with another string commutes with the
replace walk: string values are fixed points of the walk and touch neither
counter. -/
theorem replaceTextO_set_str (find repl : String) (all : Bool) (o : JObj)
    (k s x : String) (h : o.find k = some (.str s)) (c : Nat) (f : Bool) :
    replaceTextO find repl all (o.set k (.str x)) c f =
      ((replaceTextO find repl all o c f).1.set k (.str x),
       (replaceTextO find repl all o c f).2) := by
  match o with
  | .nil => simp [JObj.find] at h
  | .cons k2 v t =>
    by_cases hk : k2 = k
    · subst hk
      simp [JObj.find] at h
      subst h
      rw [JObj_set_cons_self]
      rw [replaceTextO, replaceTextO]
      simp [replaceTextV, JObj.set]
    · simp only [JObj.find, if_neg hk] at h
      rw [JObj.set, if_neg hk]
      rw [replaceTextO, replaceTextO]
      simp only []
      rw [replaceTextO_set_str find repl all t k s x h]
      simp [JObj.set, hk]
termination_by sizeOf o

theorem mapTextsO_set_str (g : String → String) (o : JObj) (k s x : String)
    (h : o.find k = some (.str s)) :
    mapTextsO g (o.set k (.str x)) = (mapTextsO g o).set k (.str x) := by
  match o with
  | .nil => simp [JObj.find] at h
  | .cons k2 v t =>
    by_cases hk : k2 = k
    · subst hk
      simp [JObj.find] at h
      subst h
      rw [JObj_set_cons_self]
      rw [mapTextsO, mapTextsO]
      simp [mapTextsV, JObj.set]
    · simp only [JObj.find, if_neg hk] at h
      rw [JObj.set, if_neg hk]
      rw [mapTextsO, mapTextsO]
      rw [mapTextsO_set_str g t k s x h]
      simp [JObj.set, hk]
termination_by sizeOf o

theorem JObj_set_find_self (o : JObj) (k : String) (v : JVal) (h : o.find k = some v) :
    o.set k v = o := by
  match o with
  | .nil => simp [JObj.find] at h
  | .cons k2 w t =>
    by_cases hk : k2 = k
    · subst hk
      simp [JObj.find] at h
      subst h
      simp [JObj.set]
    · simp only [JObj.find, if_neg hk] at h
      rw [JObj.set, if_neg hk, JObj_set_find_self t k v h]
termination_by sizeOf o

theorem textsO_set_str (o : JObj) (k s x : String) (h : o.find k = some (.str s)) :
    textsO (o.set k (.str x)) = textsO o := by
  match o with
  | .nil => simp [JObj.find] at h
  | .cons k2 v t =>
    by_cases hk : k2 = k
    · subst hk
      simp [JObj.find] at h
      subst h
      rw [JObj_set_cons_self]
      rw [textsO, textsO]
      simp [textsV]
    · simp only [JObj.find, if_neg hk] at h
      rw [JObj.set, if_neg hk]
      rw [textsO, textsO]
      rw [textsO_set_str t k s x h]
termination_by sizeOf o

/-! ## Characterisation of the replace-all walk -/

mutual

/-- With `replace_all=True`, the walk maps `pyReplace` over every text
payload, adds the total occurrence count, and ors in whether any payload
contains `find`. -/
theorem replaceTextV_all (find repl : String) (v : JVal) (c : Nat) (f : Bool) :
    replaceTextV find repl true v c f =
      (mapTextsV (pyReplace find repl) v,
       c + ((textsV v).map (pyCount find)).sum,
       f || (textsV v).any (strIn find)) := by
  match v with
  | .null => simp [replaceTextV, mapTextsV, textsV]
  | .bool b => simp [replaceTextV, mapTextsV, textsV]
  | .num n => simp [replaceTextV, mapTextsV, textsV]
  | .str s => simp [replaceTextV, mapTextsV, textsV]
  | .arr l =>
    simp only [replaceTextV]
    rw [replaceTextL_all find repl l c f]
    simp [mapTextsV, textsV]
  | .obj o =>
    simp only [replaceTextV]
    by_cases ht : typeIs o "text" = true
    · cases hfind : o.find "text" with
      | some w =>
        cases w with
        | str s =>
          by_cases hin : strIn find s = true
          · simp only [textStep, ht, hfind, hin, if_true, reduceIte]
            rw [replaceTextO_set_str find repl true o "text" s _ hfind]
            rw [replaceTextO_all find repl o (c + pyCount find s) true]
            rw [mapTextsV]
            simp only [mapTextStep, ht, hfind, if_true, reduceIte]
            rw [mapTextsO_set_str (pyReplace find repl) o "text" s _ hfind]
            simp [textsV, textPayload, ht, hfind, hin]
            omega
          · rw [Bool.not_eq_true] at hin
            simp only [textStep, ht, hfind, hin, Bool.false_eq_true, if_false, reduceIte]
            rw [replaceTextO_all find repl o c f]
            rw [mapTextsV]
            simp only [mapTextStep, ht, hfind, reduceIte]
            rw [pyReplace_of_not_in find repl s hin]
            rw [JObj_set_find_self o "text" _ hfind]
            simp [textsV, textPayload, ht, hfind, hin, pyCount_of_not_in find s hin]
        | null =>
          simp only [textStep, ht, hfind, if_true, reduceIte]
          rw [replaceTextO_all find repl o c f]
          rw [mapTextsV]
          simp only [mapTextStep, ht, hfind, if_true, reduceIte]
          simp [textsV, textPayload, ht, hfind]
        | bool b =>
          simp only [textStep, ht, hfind, if_true, reduceIte]
          rw [replaceTextO_all find repl o c f]
          rw [mapTextsV]
          simp only [mapTextStep, ht, hfind, if_true, reduceIte]
          simp [textsV, textPayload, ht, hfind]
        | num n =>
          simp only [textStep, ht, hfind, if_true, reduceIte]
          rw [replaceTextO_all find repl o c f]
          rw [mapTextsV]
          simp only [mapTextStep, ht, hfind, if_true, reduceIte]
          simp [textsV, textPayload, ht, hfind]
        | arr l =>
          simp only [textStep, ht, hfind, if_true, reduceIte]
          rw [replaceTextO_all find repl o c f]
          rw [mapTextsV]
          simp only [mapTextStep, ht, hfind, if_true, reduceIte]
          simp [textsV, textPayload, ht, hfind]
        | obj p =>
          simp only [textStep, ht, hfind, if_true, reduceIte]
          rw [replaceTextO_all find repl o c f]
          rw [mapTextsV]
          simp only [mapTextStep, ht, hfind, if_true, reduceIte]
          simp [textsV, textPayload, ht, hfind]
      | none =>
        simp only [textStep, ht, hfind, if_true, reduceIte]
        rw [replaceTextO_all find repl o c f]
        rw [mapTextsV]
        simp only [mapTextStep, ht, hfind, if_true, reduceIte]
        simp [textsV, textPayload, ht, hfind]
    · simp only [textStep, ht, Bool.false_eq_true, if_false, reduceIte]
      rw [replaceTextO_all find repl o c f]
      rw [mapTextsV]
      simp only [mapTextStep, ht, Bool.false_eq_true, if_false, reduceIte]
      simp [textsV, textPayload, ht]
termination_by msizeV v
decreasing_by
  all_goals simp [msizeV]

theorem replaceTextL_all (find repl : String) (l : JList) (c : Nat) (f : Bool) :
    replaceTextL find repl true l c f =
      (mapTextsL (pyReplace find repl) l,
       c + ((textsL l).map (pyCount find)).sum,
       f || (textsL l).any (strIn find)) := by
  match l with
  | .nil => simp [replaceTextL, mapTextsL, textsL]
  | .cons v t =>
    simp only [replaceTextL]
    rw [replaceTextV_all find repl v c f]
    rw [replaceTextL_all find repl t]
    simp [mapTextsL, textsL, Bool.or_assoc]
    omega
termination_by msizeL l
decreasing_by
  all_goals simp [msizeL]
  all_goals omega

theorem replaceTextO_all (find repl : String) (o : JObj) (c : Nat) (f : Bool) :
    replaceTextO find repl true o c f =
      (mapTextsO (pyReplace find repl) o,
       c + ((textsO o).map (pyCount find)).sum,
       f || (textsO o).any (strIn find)) := by
  match o with
  | .nil => simp [replaceTextO, mapTextsO, textsO]
  | .cons k v t =>
    simp only [replaceTextO]
    rw [replaceTextV_all find repl v c f]
    rw [replaceTextO_all find repl t]
    simp [mapTextsO, textsO, Bool.or_assoc]
    omega
termination_by msizeO o
decreasing_by
  all_goals simp [msizeO]
  all_goals omega

end

/-! ## Characterisation of the first-match walk -/

theorem isSomeMap {A B : Type} (g : A → B) (a : Option A) :
    (a.map g).isSome = a.isSome := by
  cases a <;> rfl

mutual

theorem firstTextV?_isSome (find repl : String) (v : JVal) :
    (firstTextV? find repl v).isSome = (textsV v).any (strIn find) := by
  match v with
  | .null => simp [firstTextV?, textsV]
  | .bool b => simp [firstTextV?, textsV]
  | .num n => simp [firstTextV?, textsV]
  | .str s => simp [firstTextV?, textsV]
  | .arr l =>
    simp only [firstTextV?, textsV]
    rw [isSomeMap]
    exact firstTextL?_isSome find repl l
  | .obj o =>
    simp only [firstTextV?]
    by_cases ht : typeIs o "text" = true
    · cases hfind : o.find "text" with
      | some w =>
        cases w with
        | str s =>
          by_cases hin : strIn find s = true
          · simp [matchStep?, ht, hfind, hin, textsV, textPayload]
          · rw [Bool.not_eq_true] at hin
            simp only [matchStep?, ht, hfind, hin, Bool.false_eq_true, if_false, if_true,
              reduceIte]
            simp only [isSomeMap]
            simp [textsV, textPayload, ht, hfind, hin, firstTextO?_isSome find repl o]
        | null =>
          simp only [matchStep?, ht, hfind, reduceIte, isSomeMap]
          simp [textsV, textPayload, ht, hfind, firstTextO?_isSome find repl o]
        | bool b =>
          simp only [matchStep?, ht, hfind, reduceIte, isSomeMap]
          simp [textsV, textPayload, ht, hfind, firstTextO?_isSome find repl o]
        | num n =>
          simp only [matchStep?, ht, hfind, reduceIte, isSomeMap]
          simp [textsV, textPayload, ht, hfind, firstTextO?_isSome find repl o]
        | arr l =>
          simp only [matchStep?, ht, hfind, reduceIte, isSomeMap]
          simp [textsV, textPayload, ht, hfind, firstTextO?_isSome find repl o]
        | obj p =>
          simp only [matchStep?, ht, hfind, reduceIte, isSomeMap]
          simp [textsV, textPayload, ht, hfind, firstTextO?_isSome find repl o]
      | none =>
        simp only [matchStep?, ht, hfind, reduceIte, isSomeMap]
        simp [textsV, textPayload, ht, hfind, firstTextO?_isSome find repl o]
    · simp only [matchStep?, ht, Bool.false_eq_true, if_false, reduceIte, isSomeMap]
      simp [textsV, textPayload, ht, firstTextO?_isSome find repl o]
termination_by msizeV v
decreasing_by all_goals simp [msizeV]

theorem firstTextL?_isSome (find repl : String) (l : JList) :
    (firstTextL? find repl l).isSome = (textsL l).any (strIn find) := by
  match l with
  | .nil => simp [firstTextL?, textsL]
  | .cons v t =>
    have hv := firstTextV?_isSome find repl v
    cases hfv : firstTextV? find repl v with
    | some v2 =>
      rw [hfv] at hv
      simp [firstTextL?, hfv, textsL, ← hv]
    | none =>
      rw [hfv] at hv
      simp only [firstTextL?, hfv, isSomeMap]
      simp [textsL, ← hv, firstTextL?_isSome find repl t]
termination_by msizeL l
decreasing_by
  all_goals simp [msizeL]
  all_goals omega

theorem firstTextO?_isSome (find repl : String) (o : JObj) :
    (firstTextO? find repl o).isSome = (textsO o).any (strIn find) := by
  match o with
  | .nil => simp [firstTextO?, textsO]
  | .cons k v t =>
    have hv := firstTextV?_isSome find repl v
    cases hfv : firstTextV? find repl v with
    | some v2 =>
      rw [hfv] at hv
      simp [firstTextO?, hfv, textsO, ← hv]
    | none =>
      rw [hfv] at hv
      simp only [firstTextO?, hfv, isSomeMap]
      simp [textsO, ← hv, firstTextO?_isSome find repl t]
termination_by msizeO o
decreasing_by
  all_goals simp [msizeO]
  all_goals omega

end

mutual

/-- With `replace_all=False` and a nonzero running count, the walk leaves the
tree and the count unchanged and only accumulates `found`. -/
theorem replaceTextV_first_pos (find repl : String) (v : JVal) (c : Nat) (f : Bool)
    (hc : c ≠ 0) :
    replaceTextV find repl false v c f = (v, c, f || (textsV v).any (strIn find)) := by
  match v with
  | .null => simp [replaceTextV, textsV]
  | .bool b => simp [replaceTextV, textsV]
  | .num n => simp [replaceTextV, textsV]
  | .str s => simp [replaceTextV, textsV]
  | .arr l =>
    simp only [replaceTextV]
    rw [replaceTextL_first_pos find repl l c f hc]
    simp [textsV]
  | .obj o =>
    simp only [replaceTextV]
    by_cases ht : typeIs o "text" = true
    · cases hfind : o.find "text" with
      | some w =>
        cases w with
        | str s =>
          by_cases hin : strIn find s = true
          · simp only [textStep, ht, hfind, hin, if_true, hc, Bool.false_eq_true, if_false,
              reduceIte]
            rw [replaceTextO_first_pos find repl o c true hc]
            simp [textsV, textPayload, ht, hfind, hin]
          · rw [Bool.not_eq_true] at hin
            simp only [textStep, ht, hfind, hin, Bool.false_eq_true, if_false, reduceIte]
            rw [replaceTextO_first_pos find repl o c f hc]
            simp [textsV, textPayload, ht, hfind, hin]
        | null =>
          simp only [textStep, ht, hfind, reduceIte]
          rw [replaceTextO_first_pos find repl o c f hc]
          simp [textsV, textPayload, ht, hfind]
        | bool b =>
          simp only [textStep, ht, hfind, reduceIte]
          rw [replaceTextO_first_pos find repl o c f hc]
          simp [textsV, textPayload, ht, hfind]
        | num n =>
          simp only [textStep, ht, hfind, reduceIte]
          rw [replaceTextO_first_pos find repl o c f hc]
          simp [textsV, textPayload, ht, hfind]
        | arr l =>
          simp only [textStep, ht, hfind, reduceIte]
          rw [replaceTextO_first_pos find repl o c f hc]
          simp [textsV, textPayload, ht, hfind]
        | obj p =>
          simp only [textStep, ht, hfind, reduceIte]
          rw [replaceTextO_first_pos find repl o c f hc]
          simp [textsV, textPayload, ht, hfind]
      | none =>
        simp only [textStep, ht, hfind, reduceIte]
        rw [replaceTextO_first_pos find repl o c f hc]
        simp [textsV, textPayload, ht, hfind]
    · simp only [textStep, ht, Bool.false_eq_true, if_false, reduceIte]
      rw [replaceTextO_first_pos find repl o c f hc]
      simp [textsV, textPayload, ht]
termination_by msizeV v
decreasing_by all_goals simp [msizeV]

theorem replaceTextL_first_pos (find repl : String) (l : JList) (c : Nat) (f : Bool)
    (hc : c ≠ 0) :
    replaceTextL find repl false l c f = (l, c, f || (textsL l).any (strIn find)) := by
  match l with
  | .nil => simp [replaceTextL, textsL]
  | .cons v t =>
    simp only [replaceTextL]
    rw [replaceTextV_first_pos find repl v c f hc]
    rw [replaceTextL_first_pos find repl t c _ hc]
    simp [textsL, Bool.or_assoc]
termination_by msizeL l
decreasing_by
  all_goals simp [msizeL]
  all_goals omega

theorem replaceTextO_first_pos (find repl : String) (o : JObj) (c : Nat) (f : Bool)
    (hc : c ≠ 0) :
    replaceTextO find repl false o c f = (o, c, f || (textsO o).any (strIn find)) := by
  match o with
  | .nil => simp [replaceTextO, textsO]
  | .cons k v t =>
    simp only [replaceTextO]
    rw [replaceTextV_first_pos find repl v c f hc]
    rw [replaceTextO_first_pos find repl t c _ hc]
    simp [textsO, Bool.or_assoc]
termination_by msizeO o
decreasing_by
  all_goals simp [msizeO]
  all_goals omega

end

mutual

/-- With `replace_all=False` and a zero running count, the walk rewrites
exactly the first matching text node (via `pyReplace1`), reports count `1`
exactly when some text payload contains `find`, and leaves every other node
untouched. -/
theorem replaceTextV_first_zero (find repl : String) (v : JVal) (f : Bool) :
    replaceTextV find repl false v 0 f =
      ((firstTextV? find repl v).getD v,
       if (textsV v).any (strIn find) then 1 else 0,
       f || (textsV v).any (strIn find)) := by
  match v with
  | .null => simp [replaceTextV, firstTextV?, textsV]
  | .bool b => simp [replaceTextV, firstTextV?, textsV]
  | .num n => simp [replaceTextV, firstTextV?, textsV]
  | .str s => simp [replaceTextV, firstTextV?, textsV]
  | .arr l =>
    simp only [replaceTextV]
    rw [replaceTextL_first_zero find repl l f]
    cases hfl : firstTextL? find repl l with
    | some l2 => simp [firstTextV?, hfl, textsV]
    | none => simp [firstTextV?, hfl, textsV]
  | .obj o =>
    simp only [replaceTextV]
    by_cases ht : typeIs o "text" = true
    · cases hfind : o.find "text" with
      | some w =>
        cases w with
        | str s =>
          by_cases hin : strIn find s = true
          · simp only [textStep, ht, hfind, hin, if_true, Bool.false_eq_true, if_false,
              reduceIte]
            rw [replaceTextO_set_str find repl false o "text" s _ hfind]
            rw [replaceTextO_first_pos find repl o 1 true (by omega)]
            simp [firstTextV?, matchStep?, ht, hfind, hin, textsV, textPayload]
          · rw [Bool.not_eq_true] at hin
            simp only [textStep, ht, hfind, hin, Bool.false_eq_true, if_false, reduceIte]
            rw [replaceTextO_first_zero find repl o f]
            simp only [firstTextV?, matchStep?, ht, hfind, hin, Bool.false_eq_true, if_false,
              if_true, reduceIte]
            cases hfo : firstTextO? find repl o with
            | some o2 => simp [hfo, textsV, textPayload, ht, hfind, hin]
            | none => simp [hfo, textsV, textPayload, ht, hfind, hin]
        | null =>
          simp only [textStep, ht, hfind, reduceIte]
          rw [replaceTextO_first_zero find repl o f]
          simp only [firstTextV?, matchStep?, ht, hfind, reduceIte]
          cases hfo : firstTextO? find repl o with
          | some o2 => simp [hfo, textsV, textPayload, ht, hfind]
          | none => simp [hfo, textsV, textPayload, ht, hfind]
        | bool b =>
          simp only [textStep, ht, hfind, reduceIte]
          rw [replaceTextO_first_zero find repl o f]
          simp only [firstTextV?, matchStep?, ht, hfind, reduceIte]
          cases hfo : firstTextO? find repl o with
          | some o2 => simp [hfo, textsV, textPayload, ht, hfind]
          | none => simp [hfo, textsV, textPayload, ht, hfind]
        | num n =>
          simp only [textStep, ht, hfind, reduceIte]
          rw [replaceTextO_first_zero find repl o f]
          simp only [firstTextV?, matchStep?, ht, hfind, reduceIte]
          cases hfo : firstTextO? find repl o with
          | some o2 => simp [hfo, textsV, textPayload, ht, hfind]
          | none => simp [hfo, textsV, textPayload, ht, hfind]
        | arr l =>
          simp only [textStep, ht, hfind, reduceIte]
          rw [replaceTextO_first_zero find repl o f]
          simp only [firstTextV?, matchStep?, ht, hfind, reduceIte]
          cases hfo : firstTextO? find repl o with
          | some o2 => simp [hfo, textsV, textPayload, ht, hfind]
          | none => simp [hfo, textsV, textPayload, ht, hfind]
        | obj p =>
          simp only [textStep, ht, hfind, reduceIte]
          rw [replaceTextO_first_zero find repl o f]
          simp only [firstTextV?, matchStep?, ht, hfind, reduceIte]
          cases hfo : firstTextO? find repl o with
          | some o2 => simp [hfo, textsV, textPayload, ht, hfind]
          | none => simp [hfo, textsV, textPayload, ht, hfind]
      | none =>
        simp only [textStep, ht, hfind, reduceIte]
        rw [replaceTextO_first_zero find repl o f]
        simp only [firstTextV?, matchStep?, ht, hfind, reduceIte]
        cases hfo : firstTextO? find repl o with
        | some o2 => simp [hfo, textsV, textPayload, ht, hfind]
        | none => simp [hfo, textsV, textPayload, ht, hfind]
    · simp only [textStep, ht, Bool.false_eq_true, if_false, reduceIte]
      rw [replaceTextO_first_zero find repl o f]
      simp only [firstTextV?, matchStep?, ht, Bool.false_eq_true, if_false, reduceIte]
      cases hfo : firstTextO? find repl o with
      | some o2 => simp [hfo, textsV, textPayload, ht]
      | none => simp [hfo, textsV, textPayload, ht]
termination_by msizeV v
decreasing_by all_goals simp [msizeV]

theorem replaceTextL_first_zero (find repl : String) (l : JList) (f : Bool) :
    replaceTextL find repl false l 0 f =
      ((firstTextL? find repl l).getD l,
       if (textsL l).any (strIn find) then 1 else 0,
       f || (textsL l).any (strIn find)) := by
  match l with
  | .nil => simp [replaceTextL, firstTextL?, textsL]
  | .cons v t =>
    simp only [replaceTextL]
    rw [replaceTextV_first_zero find repl v f]
    have hv := firstTextV?_isSome find repl v
    by_cases hany : (textsV v).any (strIn find) = true
    · rw [hany] at hv
      cases hfv : firstTextV? find repl v with
      | some v2 =>
        simp only [hany, if_true, reduceIte, hfv]
        rw [replaceTextL_first_pos find repl t 1 _ (by omega)]
        simp [firstTextL?, hfv, textsL, hany]
      | none => rw [hfv] at hv; simp at hv
    · rw [Bool.not_eq_true] at hany
      rw [hany] at hv
      cases hfv : firstTextV? find repl v with
      | some v2 => rw [hfv] at hv; simp at hv
      | none =>
        simp only [hany, Bool.false_eq_true, if_false, reduceIte, hfv]
        rw [replaceTextL_first_zero find repl t _]
        simp only [firstTextL?, hfv]
        cases hft : firstTextL? find repl t with
        | some t2 => simp [hft, textsL, hany, Option.getD]
        | none => simp [hft, textsL, hany, Option.getD]
termination_by msizeL l
decreasing_by
  all_goals simp [msizeL]
  all_goals omega

theorem replaceTextO_first_zero (find repl : String) (o : JObj) (f : Bool) :
    replaceTextO find repl false o 0 f =
      ((firstTextO? find repl o).getD o,
       if (textsO o).any (strIn find) then 1 else 0,
       f || (textsO o).any (strIn find)) := by
  match o with
  | .nil => simp [replaceTextO, firstTextO?, textsO]
  | .cons k v t =>
    simp only [replaceTextO]
    rw [replaceTextV_first_zero find repl v f]
    have hv := firstTextV?_isSome find repl v
    by_cases hany : (textsV v).any (strIn find) = true
    · rw [hany] at hv
      cases hfv : firstTextV? find repl v with
      | some v2 =>
        simp only [hany, if_true, reduceIte, hfv]
        rw [replaceTextO_first_pos find repl t 1 _ (by omega)]
        simp [firstTextO?, hfv, textsO, hany]
      | none => rw [hfv] at hv; simp at hv
    · rw [Bool.not_eq_true] at hany
      rw [hany] at hv
      cases hfv : firstTextV? find repl v with
      | some v2 => rw [hfv] at hv; simp at hv
      | none =>
        simp only [hany, Bool.false_eq_true, if_false, reduceIte, hfv]
        rw [replaceTextO_first_zero find repl t _]
        simp only [firstTextO?, hfv]
        cases hft : firstTextO? find repl t with
        | some t2 => simp [hft, textsO, hany, Option.getD]
        | none => simp [hft, textsO, hany, Option.getD]
termination_by msizeO o
decreasing_by
  all_goals simp [msizeO]
  all_goals omega

end

/-! ## Concrete ADF trees (the shapes the repository's test factories build) -/

/-- An ADF text leaf. -/
def textNode (s : String) : JVal :=
  .obj (.cons "type" (.str "text") (.cons "text" (.str s) .nil))

/-- A paragraph wrapping one text leaf. -/
def paragraphS (s : String) : JVal :=
  .obj (.cons "type" (.str "paragraph")
    (.cons "content" (.arr (.cons (textNode s) .nil)) .nil))

/-- A whole ADF document. -/
def docNode (children : List JVal) : JVal :=
  .obj (.cons "type" (.str "doc") (.cons "version" (.num 1)
    (.cons "content" (.arr (JList.ofList children)) .nil)))

/-! ## C1: the empty-find boundary -/

theorem strIn_empty_left (s : String) : strIn "" s = true := by
  have : ("" : String).data = [] := rfl
  rw [strIn, this, strInL_nil]

theorem any_strIn_empty (l : List String) : l.any (strIn "") = !l.isEmpty := by
  cases l with
  | nil => rfl
  | cons a t => simp [strIn_empty_left]

theorem pyCount_empty_left (s : String) : pyCount "" s = s.length + 1 := rfl

/-- C1 counterexample: on the document with the single text leaf `"ab"`,
`find=""` reports `found=True` (not `False`), a count of `3` (not `0`,
namely `len("ab") + 1`), and rewrites the leaf to `"xaxbx"` (hence text
nodes do not stay unchanged), refuting the claim at this input. -/
theorem c1_empty_find_counterexample :
    (replaceTextV "" "x" true (docNode [paragraphS "ab"]) 0 false).2.2 = true ∧
    (replaceTextV "" "x" true (docNode [paragraphS "ab"]) 0 false).2.1 = 3 ∧
    (replaceTextV "" "x" true (docNode [paragraphS "ab"]) 0 false).1
      = docNode [paragraphS "xaxbx"] := by
  refine ⟨?_, ?_, ?_⟩ <;>
    simp [replaceTextV, replaceTextO, replaceTextL, textStep, typeIs, JObj.find, JObj.set,
      docNode, paragraphS, textNode, JList.ofList, strIn, strInL, pyReplace, pyReplaceL,
      pyCount, pyCountL, List.isPrefixOf]

/-- C1 amended: `find=""` matches inside every text node (Python substring
semantics treat `""` as contained in every string), so the substring-replace
walk of `confluence_edit_page`/`confluence_find_replace` reports
`found=True` exactly when the tree contains at least one text node, counts
`len(text) + 1` occurrences per text node under `replace_all`, and rewrites
every text payload to `pyReplace "" repl`, which interleaves `repl` at every
character boundary. -/
theorem c1_empty_find_amended (repl : String) (t : JVal) :
    (replaceTextV "" repl true t 0 false).2.2 = !(textsV t).isEmpty ∧
    (replaceTextV "" repl true t 0 false).2.1
      = ((textsV t).map (fun s => s.length + 1)).sum ∧
    (replaceTextV "" repl true t 0 false).1 = mapTextsV (pyReplace "" repl) t := by
  rw [replaceTextV_all]
  refine ⟨?_, ?_, rfl⟩
  · simp [any_strIn_empty]
  · have hfun : pyCount "" = fun s => s.length + 1 := funext pyCount_empty_left
    simp only [hfun, Nat.zero_add]

/-! ## C4: replace-all counts and first-only semantics -/

/-- C4: with `replace_all=True` the reported count is the total number of
(`str.count`-style, non-overlapping) occurrences of `find` summed over all
text payloads and the walk maps `pyReplace find repl` over every text
payload; with `replace_all=False` only the first matching text node in
depth-first walk order is rewritten (by `pyReplace1`, i.e. first occurrence
only), every other node is untouched, and the count is capped at `1`
(`1` exactly when some payload contains `find`); on the concrete document
with text `"foo foo"`, replacing `"foo"` by `"bar"` first-only yields count
`1` and payload `"bar foo"`. -/
theorem c4_replace_count_and_first_only (find repl : String) (t : JVal) :
    ((replaceTextV find repl true t 0 false).2.1
        = ((textsV t).map (pyCount find)).sum
      ∧ (replaceTextV find repl true t 0 false).1 = mapTextsV (pyReplace find repl) t)
    ∧ ((replaceTextV find repl false t 0 false).1 = (firstTextV? find repl t).getD t
      ∧ (replaceTextV find repl false t 0 false).2.1
          = if (textsV t).any (strIn find) then 1 else 0)
    ∧ ((replaceTextV "foo" "bar" false (docNode [paragraphS "foo foo"]) 0 false).2.1 = 1
      ∧ textsV (replaceTextV "foo" "bar" false (docNode [paragraphS "foo foo"]) 0 false).1
          = ["bar foo"]) := by
  refine ⟨⟨?_, ?_⟩, ⟨?_, ?_⟩, ?_, ?_⟩
  · rw [replaceTextV_all]
    simp
  · rw [replaceTextV_all]
  · rw [replaceTextV_first_zero]
  · rw [replaceTextV_first_zero]
  · simp [replaceTextV, replaceTextO, replaceTextL, textStep, typeIs, JObj.find, JObj.set,
      docNode, paragraphS, textNode, JList.ofList, strIn, strInL, pyReplace1, pyReplace1L,
      pyReplace1NE, List.isPrefixOf]
  · simp [replaceTextV, replaceTextO, replaceTextL, textStep, typeIs, JObj.find, JObj.set,
      docNode, paragraphS, textNode, JList.ofList, strIn, strInL, pyReplace1, pyReplace1L,
      pyReplace1NE, List.isPrefixOf, textsV, textsO, textsL, textPayload]

/-! ## Text extraction (`_extract_text_from_adf`)

The source renders an ADF tree to plaintext by a recursive type dispatch.
Every case below mirrors one branch of the Python function, in the source's
order.  `node.get("type", "")` with a non-string type value never equals any
dispatch string, which the `""` default reproduces; a non-string value at
`"text"` or under `attrs` would make Python return or format a non-string
(impossible in parsed ADF bodies), modelled by the string defaults. -/

/-- `node.get("type", "")` as the dispatch key. -/
def nodeType (o : JObj) : String :=
  match o.find "type" with
  | some (.str t) => t
  | _ => ""

/-- `node.get("attrs", {})` (a non-dict attrs value cannot occur in ADF). -/
def attrsOf (o : JObj) : JObj :=
  match o.find "attrs" with
  | some (.obj a) => a
  | _ => .nil

/-- `node.get("attrs", {}).get(k, dflt)` for string-valued attributes. -/
def attrStr (o : JObj) (k dflt : String) : String :=
  match (attrsOf o).find k with
  | some (.str s) => s
  | _ => dflt

/-- Python string repetition `s * n`. -/
def sdup (s : String) : Nat → String
  | 0 => ""
  | n + 1 => s ++ sdup s n

/-- Termination helper: the measure of a looked-up `content` value is below
the object's own measure. -/
theorem find_measure_lt (o : JObj) (k : String) :
    (match o.find k with | some v => 2 * msizeV v + 1 | none => 0) < 2 * msizeO o + 1 := by
  cases h : o.find k with
  | none => simp
  | some v =>
    have := find_msize o k v h
    show 2 * msizeV v + 1 < 2 * msizeO o + 1
    omega

mutual

/-- `_extract_text_from_adf` on one JSON value: a list renders as the
concatenation of its items, a dict through the type dispatch, anything
else as the empty string. -/
def extractV : JVal → Nat → String
  | .arr l, depth => extractL l depth
  | .obj o, depth => extractNode o depth
  | .null, _ => ""
  | .bool _, _ => ""
  | .num _, _ => ""
  | .str _, _ => ""
termination_by v _ => 2 * msizeV v
decreasing_by
  all_goals simp [msizeV]
  all_goals omega

def extractL : JList → Nat → String
  | .nil, _ => ""
  | .cons v t, depth => extractV v depth ++ extractL t depth
termination_by l _ => 2 * msizeL l
decreasing_by
  all_goals simp [msizeL]
  all_goals omega

/-- `node.get("content", [])` rendered recursively (`none` renders like the
default empty list). -/
def extractOpt : Option JVal → Nat → String
  | some v, depth => extractV v depth
  | none, _ => ""
termination_by op _ => match op with | some v => 2 * msizeV v + 1 | none => 0
decreasing_by
  all_goals simp

/-- The cells of a `tableRow`: each child rendered and stripped, in order
(ADF table rows always store their cells as a JSON array). -/
def extractCellsOpt : Option JVal → Nat → List String
  | some (.arr l), depth => extractCells l depth
  | some .null, _ => []
  | some (.bool _), _ => []
  | some (.num _), _ => []
  | some (.str _), _ => []
  | some (.obj _), _ => []
  | none, _ => []
termination_by op _ => match op with | some v => 2 * msizeV v + 1 | none => 0
decreasing_by
  all_goals simp [msizeV]
  all_goals omega

def extractCells : JList → Nat → List String
  | .nil, _ => []
  | .cons v t, depth => pyStrip (extractV v depth) :: extractCells t depth
termination_by l _ => 2 * msizeL l
decreasing_by
  all_goals simp [msizeL]
  all_goals omega

/-- The per-dict dispatch of `_extract_text_from_adf`, branch for branch. -/
def extractNode (o : JObj) (depth : Nat) : String :=
  let nt := nodeType o
  if nt == "text" then
    match o.find "text" with
    | some (.str s) => s
    | _ => ""
  else if nt == "mention" then attrStr o "text" ""
  else if nt == "emoji" then attrStr o "shortName" ""
  else if nt == "inlineCard" then attrStr o "url" ""
  else if nt == "hardBreak" then "\n"
  else if nt == "status" then "[" ++ attrStr o "text" "" ++ "]"
  else
    let inner := extractOpt (o.find "content") depth
    if nt == "paragraph" || nt == "heading" then inner ++ "\n"
    else if nt == "bulletList" then inner
    else if nt == "orderedList" then inner
    else if nt == "listItem" then
      let pfx := sdup "  " depth ++ "- "
      match (pyStrip inner).splitOn "\n" with
      | [] => ""
      | l0 :: rest =>
        pfx ++ l0 ++ "\n"
          ++ String.join (rest.map (fun ln => sdup "  " depth ++ "  " ++ ln ++ "\n"))
    else if nt == "taskList" then inner
    else if nt == "taskItem" then
      let state := attrStr o "state" "TODO"
      let checkbox := if state == "DONE" then "[x]" else "[ ]"
      "  " ++ checkbox ++ " " ++ pyStrip inner ++ "\n"
    else if nt == "table" then inner ++ "\n"
    else if nt == "tableRow" then
      String.intercalate "\t" (extractCellsOpt (o.find "content") depth) ++ "\n"
    else if nt == "tableCell" || nt == "tableHeader" then inner
    else if nt == "codeBlock" then
      let lang := attrStr o "language" ""
      let header := if lang == "" then "```\n" else "```" ++ lang ++ "\n"
      header ++ inner ++ "```\n"
    else if nt == "blockquote" then
      String.intercalate "\n"
          (((pyStrip inner).splitOn "\n").map (fun ln => "> " ++ ln)) ++ "\n"
    else if nt == "rule" then "---\n"
    else if nt == "panel" then "[" ++ attrStr o "panelType" "info" ++ "] " ++ inner
    else if nt == "expand" then
      let title := attrStr o "title" ""
      if title == "" then inner else "▸ " ++ title ++ "\n" ++ inner
    else inner
termination_by 2 * msizeO o + 1
decreasing_by
  all_goals exact find_measure_lt o "content"

end

/-! ## Table cell and row builders (`_build_table_cell`, `_build_table_row`) -/

/-- `_build_table_cell`: a cell of the given type wrapping one paragraph,
whose content is one text leaf when `value` is non-empty and empty
otherwise. -/
def buildTableCell (value : String) (cellType : String) : JVal :=
  .obj (.cons "type" (.str cellType)
    (.cons "content"
      (.arr (.cons
        (.obj (.cons "type" (.str "paragraph")
          (.cons "content"
            (.arr (if value == "" then .nil else .cons (textNode value) .nil)) .nil)))
        .nil))
      .nil))

/-- `_build_table_row`: a `tableRow` whose children are `_build_table_cell`
applied to each value in order. -/
def buildTableRow (values : List String) (cellType : String) : JVal :=
  .obj (.cons "type" (.str "tableRow")
    (.cons "content"
      (.arr (JList.ofList (values.map (fun v => buildTableCell v cellType)))) .nil))

/-! ## Unfolding lemmas for the extraction pack -/

set_option maxHeartbeats 1000000 in
theorem extractV_obj (o : JObj) (d : Nat) : extractV (.obj o) d = extractNode o d := by
  rw [extractV.eq_def]

theorem extractV_arr (l : JList) (d : Nat) : extractV (.arr l) d = extractL l d := by
  rw [extractV.eq_def]

theorem extractV_str (s : String) (d : Nat) : extractV (.str s) d = "" := by
  rw [extractV.eq_def]

theorem extractL_nil (d : Nat) : extractL .nil d = "" := by
  rw [extractL.eq_def]

theorem extractL_cons (v : JVal) (t : JList) (d : Nat) :
    extractL (.cons v t) d = extractV v d ++ extractL t d := by
  rw [extractL.eq_def]

theorem extractCells_nil (d : Nat) : extractCells .nil d = [] := by
  rw [extractCells.eq_def]

theorem extractCells_cons (v : JVal) (t : JList) (d : Nat) :
    extractCells (.cons v t) d = pyStrip (extractV v d) :: extractCells t d := by
  rw [extractCells.eq_def]

theorem extractOpt_some (v : JVal) (d : Nat) : extractOpt (some v) d = extractV v d := by
  rw [extractOpt.eq_def]

theorem extractOpt_none (d : Nat) : extractOpt none d = "" := by
  rw [extractOpt.eq_def]

theorem extractCellsOpt_arr (l : JList) (d : Nat) :
    extractCellsOpt (some (.arr l)) d = extractCells l d := by
  rw [extractCellsOpt.eq_def]

/-! ## C9: table-row build / extract round trip -/

/-- C9: building a row from the cell strings `["X", "Y"]` with
`_build_table_row` and rendering it with `_extract_text_from_adf` yields
exactly `"X\tY\n"`: each cell renders as its (stripped) text, cells join
with a tab, and the row ends with a newline. -/
theorem c9_build_row_extract_roundtrip :
    extractV (buildTableRow ["X", "Y"] "tableCell") 0 = "X\tY\n" := by
  simp only [buildTableRow, buildTableCell, textNode, List.map, JList.ofList]
  simp only [extractV_obj]
  rw [extractNode]
  simp [nodeType, JObj.find]
  simp only [extractCellsOpt_arr, extractCells_cons, extractCells_nil, extractV_obj]
  rw [extractNode, extractNode]
  simp [nodeType, JObj.find]
  simp only [extractOpt_some, extractV_arr, extractL_cons, extractL_nil, extractV_obj]
  rw [extractNode, extractNode]
  simp [nodeType, JObj.find]
  simp only [extractOpt_some, extractV_arr, extractL_cons, extractL_nil, extractV_obj]
  rw [extractNode, extractNode]
  simp [nodeType, JObj.find, pyStrip, pyStripL, isPyWs, pyWsChars]
  decide

/-! ## C5: date and media rendering

`_extract_text_from_adf` has no `date`, `media` or `mediaInline` branch:
these kinds fall through to the default `return inner`, and since such
nodes carry no `content`, they render as the empty string.  The
repository's own tests (`test_date`, `test_media_with_alt`,
`test_media_without_alt`, `test_media_inline`, `test_media_inline_without_alt`
in `tests/test_pure_functions.py`) assert the timestamp / alt / `"[media]"`
renderings the claim states, so the code contradicts its tests. -/

/-- A `date` node with a timestamp attr, as built in `test_date`. -/
def dateNodeCex : JVal :=
  .obj (.cons "type" (.str "date")
    (.cons "attrs" (.obj (.cons "timestamp" (.str "1738540800000") .nil)) .nil))

/-- A `media` node with an alt attr, as built in `test_media_with_alt`. -/
def mediaNodeAltCex : JVal :=
  .obj (.cons "type" (.str "media")
    (.cons "attrs" (.obj (.cons "type" (.str "file")
      (.cons "alt" (.str "screenshot.png") .nil))) .nil))

/-- A `media` node without an alt attr, as in `test_media_without_alt`. -/
def mediaNodeNoAltCex : JVal :=
  .obj (.cons "type" (.str "media")
    (.cons "attrs" (.obj (.cons "type" (.str "file")
      (.cons "id" (.str "abc-123") .nil))) .nil))

/-- A `mediaInline` node with an alt attr, as in `test_media_inline`. -/
def mediaInlineNodeCex : JVal :=
  .obj (.cons "type" (.str "mediaInline")
    (.cons "attrs" (.obj (.cons "type" (.str "file")
      (.cons "alt" (.str "doc.pdf") .nil))) .nil))

/-- C5: text extraction renders a `date` node as `""`, not its timestamp
attr, and `media`/`mediaInline` nodes as `""`, not their alt attr or the
`"[media]"` placeholder — the function has no branch for these kinds, so
they fall through to the childless default.  This contradicts the claim and
the repository's own tests, which expect `"1738540800000"`,
`"screenshot.png"`, `"[media]"` and `"doc.pdf"` respectively. -/
theorem c5_date_media_render_empty :
    extractV dateNodeCex 0 = "" ∧ extractV dateNodeCex 0 ≠ "1738540800000" ∧
    extractV mediaNodeAltCex 0 = "" ∧ extractV mediaNodeAltCex 0 ≠ "screenshot.png" ∧
    extractV mediaNodeNoAltCex 0 = "" ∧ extractV mediaNodeNoAltCex 0 ≠ "[media]" ∧
    extractV mediaInlineNodeCex 0 = "" ∧ extractV mediaInlineNodeCex 0 ≠ "doc.pdf" := by
  have hdate : extractV dateNodeCex 0 = "" := by
    simp only [dateNodeCex, extractV_obj]
    rw [extractNode]
    simp [nodeType, JObj.find, extractOpt_none]
  have halt : extractV mediaNodeAltCex 0 = "" := by
    simp only [mediaNodeAltCex, extractV_obj]
    rw [extractNode]
    simp [nodeType, JObj.find, extractOpt_none]
  have hnoalt : extractV mediaNodeNoAltCex 0 = "" := by
    simp only [mediaNodeNoAltCex, extractV_obj]
    rw [extractNode]
    simp [nodeType, JObj.find, extractOpt_none]
  have hinline : extractV mediaInlineNodeCex 0 = "" := by
    simp only [mediaInlineNodeCex, extractV_obj]
    rw [extractNode]
    simp [nodeType, JObj.find, extractOpt_none]
  refine ⟨hdate, ?_, halt, ?_, hnoalt, ?_, hinline, ?_⟩ <;> simp [hdate, halt, hnoalt, hinline]

/-! ## Table location (`_get_table_nodes`)

`_walk` appends every dict whose `type` is `"table"` (in depth-first,
pre-order over dict values and list items, nested tables included) to the
`tables` list. -/

mutual

def tablesV : JVal → List JObj
  | .obj o => (if typeIs o "table" then [o] else []) ++ tablesO o
  | .arr l => tablesL l
  | .null => []
  | .bool _ => []
  | .num _ => []
  | .str _ => []
termination_by v => msizeV v
decreasing_by all_goals simp [msizeV]

def tablesL : JList → List JObj
  | .nil => []
  | .cons v t => tablesV v ++ tablesL t
termination_by l => msizeL l
decreasing_by
  all_goals simp [msizeL]
  all_goals omega

def tablesO : JObj → List JObj
  | .nil => []
  | .cons _ v t => tablesV v ++ tablesO t
termination_by o => msizeO o
decreasing_by
  all_goals simp [msizeO]
  all_goals omega

end

/-! ## Python list subscripts

Python `l[i]` accepts one negative wrap (`-len <= i <= -1` addresses
`len + i`) and raises `IndexError` otherwise; `l.insert(i, a)` never raises
and clamps the normalized position into `[0, len]`; `l.pop(i)` uses
subscript normalization. -/

/-- The index Python `l[i]` addresses, `none` meaning `IndexError`. -/
def pyIdx (len : Nat) (i : Int) : Option Nat :=
  if 0 ≤ i then (if i < (len : Int) then some i.toNat else none)
  else (if i.natAbs ≤ len then some (len - i.natAbs) else none)

/-- Python `l[i]`. -/
def pyGet (l : List α) (i : Int) : Option α :=
  match pyIdx l.length i with
  | some n => l.get? n
  | none => none

/-- The position Python `l.insert(i, a)` inserts at. -/
def pyInsertPos (len : Nat) (i : Int) : Nat :=
  if i < 0 then len - i.natAbs else min i.toNat len

/-! ## Table mutation tools

`confluence_update_table_cell`, `confluence_insert_table_row` and
`confluence_delete_table_row` all locate `tables[table_index]` after the
same two checks, read `rows = table.get("content", [])`, check ordinals
with `>=` against lengths, and then mutate the located table in place
before pushing.  The in-place mutation of the `table_index`-th collected
table is modelled by `replaceNthTable`, which rebuilds the tree with
exactly that table (in `_get_table_nodes` order) rewritten.

`contentView` captures the three situations for `node.get("content", [])`:
an attached JSON array (mutations show up in the tree), an absent key
(Python hands back a fresh list, so mutations are silently lost), or a
non-array value (the subsequent `len`/`append` raises; a JSON string, which
would only fail at the later item assignment, cannot appear as a `content`
value in ADF). -/

inductive ContentView where
  | attached (items : List JVal)
  | fresh
  | notAList
deriving DecidableEq

def contentView (o : JObj) : ContentView :=
  match o.find "content" with
  | some (.arr l) => .attached l.toList
  | some .null => .notAList
  | some (.bool _) => .notAList
  | some (.num _) => .notAList
  | some (.str _) => .notAList
  | some (.obj _) => .notAList
  | none => .fresh

mutual

/-- Rebuild the tree with the `k`-th table (depth-first order, as collected
by `_get_table_nodes`) rewritten by `f`; the `none` counter means the
rewrite already happened. -/
def mnV (f : JObj → JObj) : JVal → Option Nat → JVal × Option Nat
  | .obj o, some k =>
    if typeIs o "table" then
      if k = 0 then (.obj (f o), none)
      else
        let p := mnO f o (some (k - 1))
        (.obj p.1, p.2)
    else
      let p := mnO f o (some k)
      (.obj p.1, p.2)
  | .arr l, some k =>
    let p := mnL f l (some k)
    (.arr p.1, p.2)
  | .null, some k => (.null, some k)
  | .bool b, some k => (.bool b, some k)
  | .num n, some k => (.num n, some k)
  | .str s, some k => (.str s, some k)
  | v, none => (v, none)
termination_by v _ => msizeV v
decreasing_by all_goals simp [msizeV]

def mnL (f : JObj → JObj) : JList → Option Nat → JList × Option Nat
  | .nil, st => (.nil, st)
  | .cons v t, st =>
    let p := mnV f v st
    let q := mnL f t p.2
    (.cons p.1 q.1, q.2)
termination_by l _ => msizeL l
decreasing_by
  all_goals simp [msizeL]
  all_goals omega

def mnO (f : JObj → JObj) : JObj → Option Nat → JObj × Option Nat
  | .nil, st => (.nil, st)
  | .cons k v t, st =>
    let p := mnV f v st
    let q := mnO f t p.2
    (.cons k p.1 q.1, q.2)
termination_by o _ => msizeO o
decreasing_by
  all_goals simp [msizeO]
  all_goals omega

end

/-- The whole tree with the `k`-th collected table rewritten by `f`. -/
def replaceNthTable (adf : JVal) (k : Nat) (f : JObj → JObj) : JVal :=
  (mnV f adf (some k)).1

/-- The fresh cell content `[{"type": "paragraph", "content": [...]}]`
assigned by `confluence_update_table_cell`. -/
def freshCellContent (value : String) : JVal :=
  .arr (.cons (.obj (.cons "type" (.str "paragraph")
    (.cons "content"
      (.arr (if value == "" then .nil else .cons (textNode value) .nil)) .nil))) .nil)

def noTablesMsg : String := "No tables found on this page."

def tableOobMsg (tableIndex : Int) (n : Nat) : String :=
  "Table index " ++ toString tableIndex ++ " out of range (page has "
    ++ toString n ++ " table(s))."

def rowOobMsg (row : Int) (n : Nat) : String :=
  "Row " ++ toString row ++ " out of range (table has " ++ toString n ++ " row(s))."

def colOobMsg (col : Int) (n : Nat) : String :=
  "Column " ++ toString col ++ " out of range (row has " ++ toString n ++ " column(s))."

inductive CellUpdateResult where
  | pushed (newAdf : JVal)
  | errMsg (msg : String)
  | exn
deriving DecidableEq

inductive RowInsertResult where
  | pushed (newAdf : JVal) (pos : Int)
  | errMsg (msg : String)
  | exn
deriving DecidableEq

inductive RowDeleteResult where
  | pushed (newAdf : JVal) (deleted : JVal)
  | errMsg (msg : String)
  | exn
deriving DecidableEq

/-- `confluence_update_table_cell` up to and including the in-place cell
rewrite: `errMsg` is an early return before any mutation or push, `pushed`
carries the tree handed to `_push_page_update`, `exn` a raised
`IndexError`/`TypeError` that `_with_error_handling` does not catch. -/
def updateTableCell (adf : JVal) (row col : Int) (value : String) (tableIndex : Int) :
    CellUpdateResult :=
  let tables := tablesV adf
  if tables.isEmpty then .errMsg noTablesMsg
  else if (tables.length : Int) ≤ tableIndex then .errMsg (tableOobMsg tableIndex tables.length)
  else
    match pyIdx tables.length tableIndex with
    | none => .exn
    | some tIdx =>
      match tables.get? tIdx with
      | none => .exn
      | some table =>
        match contentView table with
        | .notAList => .exn
        | .fresh =>
          if 0 ≤ row then .errMsg (rowOobMsg row 0) else .exn
        | .attached rows =>
          if (rows.length : Int) ≤ row then .errMsg (rowOobMsg row rows.length)
          else
            match pyIdx rows.length row with
            | none => .exn
            | some rIdx =>
              match rows.get? rIdx with
              | none => .exn
              | some rowVal =>
                match rowVal with
                | .obj ro =>
                  match contentView ro with
                  | .notAList => .exn
                  | .fresh =>
                    if 0 ≤ col then .errMsg (colOobMsg col 0) else .exn
                  | .attached cells =>
                    if (cells.length : Int) ≤ col then .errMsg (colOobMsg col cells.length)
                    else
                      match pyIdx cells.length col with
                      | none => .exn
                      | some cIdx =>
                        match cells.get? cIdx with
                        | none => .exn
                        | some cellVal =>
                          match cellVal with
                          | .obj co =>
                            let newCell : JVal := .obj (co.set "content" (freshCellContent value))
                            let newRow : JVal := .obj (ro.set "content"
                              (.arr (JList.ofList (cells.set cIdx newCell))))
                            .pushed (replaceNthTable adf tIdx (fun t =>
                              t.set "content" (.arr (JList.ofList (rows.set rIdx newRow)))))
                          | _ => .exn
                | _ => .exn

/-- `confluence_insert_table_row` up to and including the in-place splice;
`pos` is the index the success message reports. -/
def insertTableRow (adf : JVal) (rowIndex : Int) (values : List String) (tableIndex : Int) :
    RowInsertResult :=
  let tables := tablesV adf
  if tables.isEmpty then .errMsg noTablesMsg
  else if (tables.length : Int) ≤ tableIndex then .errMsg (tableOobMsg tableIndex tables.length)
  else
    match pyIdx tables.length tableIndex with
    | none => .exn
    | some tIdx =>
      match tables.get? tIdx with
      | none => .exn
      | some table =>
        match contentView table with
        | .notAList => .exn
        | .fresh =>
          if rowIndex = -1 ∨ 0 ≤ rowIndex then .pushed adf 0 else .pushed adf rowIndex
        | .attached rows =>
          let newRow := buildTableRow values "tableCell"
          if rowIndex = -1 ∨ (rows.length : Int) ≤ rowIndex then
            .pushed (replaceNthTable adf tIdx (fun t =>
              t.set "content" (.arr (JList.ofList (rows ++ [newRow]))))) (rows.length : Int)
          else
            .pushed (replaceNthTable adf tIdx (fun t =>
              t.set "content" (.arr (JList.ofList
                (rows.insertIdx (pyInsertPos rows.length rowIndex) newRow))))) rowIndex

/-- `confluence_delete_table_row` up to and including the in-place `pop`;
`deleted` is the removed row (whose stripped rendering the message
previews). -/
def deleteTableRow (adf : JVal) (rowIndex : Int) (tableIndex : Int) : RowDeleteResult :=
  let tables := tablesV adf
  if tables.isEmpty then .errMsg noTablesMsg
  else if (tables.length : Int) ≤ tableIndex then .errMsg (tableOobMsg tableIndex tables.length)
  else
    match pyIdx tables.length tableIndex with
    | none => .exn
    | some tIdx =>
      match tables.get? tIdx with
      | none => .exn
      | some table =>
        match contentView table with
        | .notAList => .exn
        | .fresh =>
          if 0 ≤ rowIndex then .errMsg (rowOobMsg rowIndex 0) else .exn
        | .attached rows =>
          if (rows.length : Int) ≤ rowIndex then .errMsg (rowOobMsg rowIndex rows.length)
          else
            match pyIdx rows.length rowIndex with
            | none => .exn
            | some rIdx =>
              match rows.get? rIdx with
              | none => .exn
              | some deleted =>
                .pushed (replaceNthTable adf tIdx (fun t =>
                  t.set "content" (.arr (JList.ofList (rows.eraseIdx rIdx))))) deleted

/-! ## Facts about Python subscript normalisation -/

theorem pyIdx_neg (len : Nat) (i : Int) (h1 : i < 0) (h2 : i.natAbs ≤ len) :
    pyIdx len i = some (len - i.natAbs) := by
  unfold pyIdx
  rw [if_neg (by omega), if_pos h2]

theorem pyIdx_neg_oob (len : Nat) (i : Int) (h1 : i < 0) (h2 : len < i.natAbs) :
    pyIdx len i = none := by
  unfold pyIdx
  rw [if_neg (by omega), if_neg (by omega)]

theorem pyIdx_some_not_ge (len : Nat) (i : Int) (n : Nat) (h : pyIdx len i = some n) :
    ¬ (len : Int) ≤ i := by
  unfold pyIdx at h
  by_cases h0 : 0 ≤ i
  · rw [if_pos h0] at h
    by_cases hlt : i < (len : Int)
    · omega
    · rw [if_neg hlt] at h
      cases h
  · omega

theorem get?_some_nonempty {α : Type} (l : List α) (n : Nat) (a : α)
    (h : l.get? n = some a) : l ≠ [] := by
  intro he
  subst he
  simp at h

/-! ## The concrete two-row table of the spec's boundary scenario -/

/-- A `tableCell` holding one paragraph, as the test factory builds it. -/
def mkCellP (t : String) : JVal :=
  .obj (.cons "type" (.str "tableCell")
    (.cons "content" (.arr (.cons (paragraphS t) .nil)) .nil))

/-- A two-cell `tableRow`, as the test factory builds it. -/
def mkRow2 (a b : String) : JVal :=
  .obj (.cons "type" (.str "tableRow")
    (.cons "content" (.arr (.cons (mkCellP a) (.cons (mkCellP b) .nil))) .nil))

/-- The table `[["A", "B"], ["C", "D"]]` of the boundary scenario. -/
def tableCexObj : JObj :=
  .cons "type" (.str "table")
    (.cons "content" (.arr (.cons (mkRow2 "A" "B") (.cons (mkRow2 "C" "D") .nil))) .nil)

/-- A document holding just that table. -/
def tableDocCex : JVal := docNode [.obj tableCexObj]

/-- That document after appending the row built from `["X", "Y"]`. -/
def tableDocCex3 : JVal :=
  docNode [.obj (tableCexObj.set "content" (.arr (JList.ofList
    [mkRow2 "A" "B", mkRow2 "C" "D", buildTableRow ["X", "Y"] "tableCell"])))]

/-! ## C6: out-of-range table ordinals -/

/-- C6 counterexample: on the two-row table, `confluence_insert_table_row`
with row ordinal `10` (at or past the row count) does **not** fail — it
appends the new row at the end (position 2, giving 3 rows), so the claim
that all three operations fail on an out-of-range row ordinal is false at
this input (the repository's own `test_beyond_range_appends` asserts the
append). -/
theorem c6_insert_beyond_range_appends_counterexample :
    insertTableRow tableDocCex 10 ["X", "Y"] 0 = .pushed tableDocCex3 2 := by
  simp [insertTableRow, tableDocCex, tableDocCex3, docNode, JList.ofList, tableCexObj,
    mkRow2, mkCellP, paragraphS, textNode, tablesV, tablesL, tablesO, typeIs, JObj.find,
    contentView, JList.toList, pyIdx, replaceNthTable, mnV, mnL, mnO, JObj.set]

/-- C6 (amended): when no tables exist, or the table ordinal is at or past
the table count, all three operations fail with the respective message and
return before any mutation or push; on the two-row table a row ordinal of
`10` makes cell-update and row-delete fail (and a column ordinal of `10`
makes cell-update fail), each with a distinct message, while row-insert
with ordinal `-1` **or** at/past the row count appends the new row at the
end (reported position 2, three rows, new row at index 2); the four failure
messages are pairwise distinct. -/
theorem c6_table_out_of_range (adf : JVal) (row col rowIdx ti : Int) (v : String)
    (vals : List String) :
    (tablesV adf = [] →
      updateTableCell adf row col v ti = .errMsg noTablesMsg ∧
      insertTableRow adf rowIdx vals ti = .errMsg noTablesMsg ∧
      deleteTableRow adf rowIdx ti = .errMsg noTablesMsg) ∧
    (tablesV adf ≠ [] → ((tablesV adf).length : Int) ≤ ti →
      updateTableCell adf row col v ti = .errMsg (tableOobMsg ti (tablesV adf).length) ∧
      insertTableRow adf rowIdx vals ti = .errMsg (tableOobMsg ti (tablesV adf).length) ∧
      deleteTableRow adf rowIdx ti = .errMsg (tableOobMsg ti (tablesV adf).length)) ∧
    (updateTableCell tableDocCex 10 0 v 0 = .errMsg (rowOobMsg 10 2) ∧
      deleteTableRow tableDocCex 10 0 = .errMsg (rowOobMsg 10 2) ∧
      updateTableCell tableDocCex 0 10 v 0 = .errMsg (colOobMsg 10 2)) ∧
    (insertTableRow tableDocCex (-1) ["X", "Y"] 0 = .pushed tableDocCex3 2 ∧
      pyGet [mkRow2 "A" "B", mkRow2 "C" "D", buildTableRow ["X", "Y"] "tableCell"] 2
        = some (buildTableRow ["X", "Y"] "tableCell")) ∧
    (noTablesMsg ≠ tableOobMsg 0 1 ∧ noTablesMsg ≠ rowOobMsg 10 2 ∧
      noTablesMsg ≠ colOobMsg 10 2 ∧ tableOobMsg 0 1 ≠ rowOobMsg 10 2 ∧
      tableOobMsg 0 1 ≠ colOobMsg 10 2 ∧ rowOobMsg 10 2 ≠ colOobMsg 10 2) := by
  refine ⟨?_, ?_, ?_, ?_, ?_⟩
  · intro h
    refine ⟨?_, ?_, ?_⟩ <;> simp [updateTableCell, insertTableRow, deleteTableRow, h]
  · intro h1 h2
    have hne : (tablesV adf).isEmpty = false := by
      simp [List.isEmpty_iff, h1]
    refine ⟨?_, ?_, ?_⟩ <;>
      simp [updateTableCell, insertTableRow, deleteTableRow, hne, h2]
  · refine ⟨?_, ?_, ?_⟩ <;>
      simp [updateTableCell, deleteTableRow, tableDocCex, docNode, JList.ofList, tableCexObj,
        mkRow2, mkCellP, paragraphS, textNode, tablesV, tablesL, tablesO, typeIs, JObj.find,
        contentView, JList.toList, pyIdx, rowOobMsg, colOobMsg]
  · constructor
    · simp [insertTableRow, tableDocCex, tableDocCex3, docNode, JList.ofList, tableCexObj,
        mkRow2, mkCellP, paragraphS, textNode, tablesV, tablesL, tablesO, typeIs, JObj.find,
        contentView, JList.toList, pyIdx, replaceNthTable, mnV, mnL, mnO, JObj.set]
    · rfl
  · refine ⟨?_, ?_, ?_, ?_, ?_, ?_⟩ <;> decide

/-- C6 witness: the amended theorem applied at concrete inputs — the
no-tables failure on an empty document and the table-ordinal failure at
index 5 on the one-table document. -/
theorem c6_table_out_of_range_witness :
    updateTableCell (docNode []) 0 0 "X" 0 = .errMsg noTablesMsg ∧
    updateTableCell tableDocCex 0 0 "X" 5 = .errMsg (tableOobMsg 5 1) := by
  have hempty : tablesV (docNode []) = [] := by
    simp [docNode, JList.ofList, tablesV, tablesL, tablesO, typeIs, JObj.find]
  have hone : tablesV tableDocCex = [tableCexObj] := by
    simp [tableDocCex, docNode, JList.ofList, tableCexObj, mkRow2, mkCellP, paragraphS,
      textNode, tablesV, tablesL, tablesO, typeIs, JObj.find]
  constructor
  · exact ((c6_table_out_of_range (docNode []) 0 0 0 0 "X" []).1 hempty).1
  · have h := ((c6_table_out_of_range tableDocCex 0 0 0 5 "X" []).2.1
      (by rw [hone]; simp) (by rw [hone]; simp)).1
    rwa [hone] at h

/-! ## C10: negative ordinals -/

/-- C10 counterexample: on the two-row table a row ordinal of `-5` (whose
magnitude exceeds the row count) makes cell-update and row-delete raise an
uncaught `IndexError` rather than act on the element at `length + ordinal`
(which does not exist), so the claim quantified over every negative ordinal
is false at this input. -/
theorem c10_negative_beyond_length_counterexample :
    updateTableCell tableDocCex (-5) 0 "X" 0 = .exn ∧
    deleteTableRow tableDocCex (-5) 0 = .exn := by
  constructor <;>
    simp [updateTableCell, deleteTableRow, tableDocCex, docNode, JList.ofList, tableCexObj,
      mkRow2, mkCellP, paragraphS, textNode, tablesV, tablesL, tablesO, typeIs, JObj.find,
      contentView, JList.toList, pyIdx]

/-- C10 (amended): the bounds checks compare ordinals with `>=` against the
lengths only, so negative ordinals pass them; a negative row ordinal whose
magnitude is at most the row count wraps Python-style: row-delete removes
the row at `length + ordinal` and cell-update rewrites the requested column
of that row, while a magnitude beyond the row count raises an uncaught
`IndexError` instead; row-insert with an ordinal of `-2` or less inserts at
the Python-clamped position `max(length + ordinal, 0)` (reporting the
negative ordinal as the position) rather than appending.  The table ordinal
wraps the same way through the subscript normalisation hypothesis. -/
theorem c10_negative_ordinal_wrap (adf : JVal) (ti row col : Int) (tIdx cIdx : Nat)
    (table ro co : JObj) (rows cells : List JVal) (v : String) (vals : List String)
    (hti : pyIdx (tablesV adf).length ti = some tIdx)
    (htab : (tablesV adf).get? tIdx = some table)
    (hrows : contentView table = .attached rows)
    (hrneg : row < 0) :
    (rows.length < row.natAbs →
      updateTableCell adf row col v ti = .exn ∧ deleteTableRow adf row ti = .exn) ∧
    (∀ deleted, row.natAbs ≤ rows.length →
      rows.get? (rows.length - row.natAbs) = some deleted →
      deleteTableRow adf row ti = .pushed (replaceNthTable adf tIdx (fun t =>
        t.set "content" (.arr (JList.ofList (rows.eraseIdx (rows.length - row.natAbs))))))
        deleted) ∧
    (row.natAbs ≤ rows.length →
      rows.get? (rows.length - row.natAbs) = some (.obj ro) →
      contentView ro = .attached cells →
      pyIdx cells.length col = some cIdx →
      cells.get? cIdx = some (.obj co) →
      ¬ (cells.length : Int) ≤ col →
      updateTableCell adf row col v ti = .pushed (replaceNthTable adf tIdx (fun t =>
        t.set "content" (.arr (JList.ofList (rows.set (rows.length - row.natAbs)
          (.obj (ro.set "content" (.arr (JList.ofList (cells.set cIdx
            (.obj (co.set "content" (freshCellContent v)))))))))))))) ∧
    (row ≤ -2 →
      insertTableRow adf row vals ti = .pushed (replaceNthTable adf tIdx (fun t =>
        t.set "content" (.arr (JList.ofList (rows.insertIdx (rows.length - row.natAbs)
          (buildTableRow vals "tableCell")))))) row) := by
  have hne : (tablesV adf).isEmpty = false := by
    simp [List.isEmpty_iff]
    exact get?_some_nonempty _ _ _ htab
  have htab2 : (tablesV adf)[tIdx]? = some table := by
    rw [← List.get?_eq_getElem?]
    exact htab
  have hnotge : ¬ ((tablesV adf).length : Int) ≤ ti := pyIdx_some_not_ge _ _ _ hti
  have hrownotge : ¬ ((rows.length : Int) ≤ row) := by omega
  refine ⟨?_, ?_, ?_, ?_⟩
  · intro hmag
    have hnone : pyIdx rows.length row = none := pyIdx_neg_oob _ _ hrneg hmag
    constructor <;>
      simp [updateTableCell, deleteTableRow, hne, hnotge, hti, htab2, hrows,
        hrownotge, hnone]
  · intro deleted hmag hget
    have hget2 : rows[rows.length - row.natAbs]? = some deleted := by
      rw [← List.get?_eq_getElem?]
      exact hget
    have hsome : pyIdx rows.length row = some (rows.length - row.natAbs) :=
      pyIdx_neg _ _ hrneg hmag
    simp [deleteTableRow, hne, hnotge, hti, htab2, hrows, hrownotge, hsome, hget2]
  · intro hmag hget hcells hcidx hcell hcolnotge
    have hget2 : rows[rows.length - row.natAbs]? = some (.obj ro) := by
      rw [← List.get?_eq_getElem?]
      exact hget
    have hcell2 : cells[cIdx]? = some (.obj co) := by
      rw [← List.get?_eq_getElem?]
      exact hcell
    have hsome : pyIdx rows.length row = some (rows.length - row.natAbs) :=
      pyIdx_neg _ _ hrneg hmag
    simp [updateTableCell, hne, hnotge, hti, htab2, hrows, hrownotge, hsome, hget2,
      hcells, hcolnotge, hcidx, hcell2]
  · intro hle2
    have hcond : ¬ (row = -1 ∨ (rows.length : Int) ≤ row) := by omega
    have hpos : pyInsertPos rows.length row = rows.length - row.natAbs := by
      unfold pyInsertPos
      rw [if_pos hrneg]
    simp [insertTableRow, hne, hnotge, hti, htab2, hrows, hcond, hpos]

/-- C10 witness: the amended theorem applied on the two-row table with a
negative table ordinal `-1` (wrapping to the only table) and row ordinal
`-1`: row-delete removes the last row `["C", "D"]`. -/
theorem c10_negative_ordinal_wrap_witness :
    deleteTableRow tableDocCex (-1) (-1) = .pushed (replaceNthTable tableDocCex 0 (fun t =>
      t.set "content" (.arr (JList.ofList ([mkRow2 "A" "B", mkRow2 "C" "D"].eraseIdx 1)))))
      (mkRow2 "C" "D") := by
  have hone : tablesV tableDocCex = [tableCexObj] := by
    simp [tableDocCex, docNode, JList.ofList, tableCexObj, mkRow2, mkCellP, paragraphS,
      textNode, tablesV, tablesL, tablesO, typeIs, JObj.find]
  have h := (c10_negative_ordinal_wrap tableDocCex (-1) (-1) 0 0 0 tableCexObj .nil .nil
      [mkRow2 "A" "B", mkRow2 "C" "D"] [] "X" []
      (by rw [hone]; decide) (by rw [hone]; rfl) (by rfl) (by decide)).2.1
  exact h (mkRow2 "C" "D") (by decide) (by rfl)

/-! ## A container-count measure

The mention-swap and task-toggle walks assign into a node's `attrs` dict
before iterating the node's values, and a dict assignment may append a key,
which grows `msize`.  `mcount` counts only dict/list containers (leaves and
entries weigh nothing), so assigning string or `null` values never grows
it; recursion terminates by the lexicographic pair `(mcount, msize)`. -/

mutual

def mcountV : JVal → Nat
  | .obj o => 1 + mcountO o
  | .arr l => 1 + mcountL l
  | .null => 0
  | .bool _ => 0
  | .num _ => 0
  | .str _ => 0

def mcountL : JList → Nat
  | .nil => 0
  | .cons v t => mcountV v + mcountL t

def mcountO : JObj → Nat
  | .nil => 0
  | .cons _ v t => mcountV v + mcountO t

end

theorem natLex {a b c d : Nat} (h : a < c ∨ (a ≤ c ∧ b < d)) :
    Prod.Lex (fun x y : Nat => x < y) (fun x y : Nat => x < y) (a, b) (c, d) := by
  rcases h with h | ⟨h1, h2⟩
  · exact Prod.Lex.left _ _ h
  · cases Nat.lt_or_eq_of_le h1 with
    | inl h => exact Prod.Lex.left _ _ h
    | inr h => subst h; exact Prod.Lex.right _ h2

theorem mcountO_set_zero_le (o : JObj) (k : String) (w : JVal) (hw : mcountV w = 0) :
    mcountO (o.set k w) ≤ mcountO o := by
  match o with
  | .nil => simp [JObj.set, mcountO, hw]
  | .cons k2 v t =>
    by_cases hk : k2 = k
    · subst hk
      simp [JObj.set, mcountO, hw]
    · simp [JObj.set, hk, mcountO]
      have := mcountO_set_zero_le t k w hw
      omega
termination_by sizeOf o

theorem mcountO_set_obj_le (o : JObj) (k : String) (a a2 : JObj)
    (h : o.find k = some (.obj a)) (h2 : mcountO a2 ≤ mcountO a) :
    mcountO (o.set k (.obj a2)) ≤ mcountO o := by
  match o with
  | .nil => simp [JObj.find] at h
  | .cons k2 v t =>
    by_cases hk : k2 = k
    · subst hk
      simp [JObj.find] at h
      subst h
      simp [JObj.set, mcountO, mcountV]
      omega
    · simp only [JObj.find, if_neg hk] at h
      simp [JObj.set, hk, mcountO]
      have := mcountO_set_obj_le t k a a2 h h2
      omega
termination_by sizeOf o

/-! ## Regex replace (`_regex_replace` in `confluence_regex_replace`)

The compiled pattern only enters through `compiled.subn(replacement, text)`,
modelled by an abstract substitution `sub : String → String × Nat` returning
the new text and the number of substitutions.  The nonlocal `count` is the
sum of the per-leaf substitution counts; the walk visits every dict value
and list item exactly as `_replace_text` does. -/

/-- The per-dict step of `_regex_replace`: substitute on a text node's
payload and keep the leaf untouched when nothing matched. -/
def regexStep (sub : String → String × Nat) (o : JObj) : JObj × Nat :=
  if typeIs o "text" then
    match o.find "text" with
    | some (.str s) =>
      if 0 < (sub s).2 then (o.set "text" (.str (sub s).1), (sub s).2) else (o, 0)
    | some _ => (o, 0)
    | none => (o, 0)
  else (o, 0)

theorem regexStep_msize (sub : String → String × Nat) (o : JObj) :
    msizeO (regexStep sub o).1 = msizeO o := by
  unfold regexStep
  by_cases ht : typeIs o "text" = true
  · simp only [ht, if_true]
    cases h : o.find "text" with
    | none => simp
    | some v =>
      cases v with
      | str s =>
        by_cases hn : 0 < (sub s).2
        · simp [hn, msizeO_set_str o "text" s _ h]
        · simp [hn]
      | null => simp
      | bool b => simp
      | num n => simp
      | arr l => simp
      | obj p => simp
  · simp [ht]

mutual

def regexV (sub : String → String × Nat) : JVal → JVal × Nat
  | .obj o =>
    let s0 := regexStep sub o
    let p := regexO sub s0.1
    (.obj p.1, s0.2 + p.2)
  | .arr l =>
    let p := regexL sub l
    (.arr p.1, p.2)
  | .null => (.null, 0)
  | .bool b => (.bool b, 0)
  | .num n => (.num n, 0)
  | .str s => (.str s, 0)
termination_by v => msizeV v
decreasing_by all_goals simp [regexStep_msize, msizeV]

def regexL (sub : String → String × Nat) : JList → JList × Nat
  | .nil => (.nil, 0)
  | .cons v t =>
    let p := regexV sub v
    let q := regexL sub t
    (.cons p.1 q.1, p.2 + q.2)
termination_by l => msizeL l
decreasing_by
  all_goals simp [msizeL]
  all_goals omega

def regexO (sub : String → String × Nat) : JObj → JObj × Nat
  | .nil => (.nil, 0)
  | .cons k v t =>
    let p := regexV sub v
    let q := regexO sub t
    (.cons k p.1 q.1, p.2 + q.2)
termination_by o => msizeO o
decreasing_by
  all_goals simp [msizeO]
  all_goals omega

end

/-! ## Mention swap (`_replace_mentions` in `confluence_replace_mention`)

A dict is rewritten when its type is `"mention"`, it has an `attrs` key and
the lowercased `find_user` occurs in the lowercased display text; the walk
then sets `attrs["id"]` and `attrs["text"]` in place and iterates the
node's values (a non-dict `attrs`, which would make Python raise, cannot
occur in ADF and is modelled as a skip).  The nonlocal `count` is the
number of rewritten mention nodes. -/

/-- `node["attrs"].get("text", "")` for the case-insensitive match. -/
def mentionText (a : JObj) : String :=
  match a.find "text" with
  | some (.str s) => s
  | _ => ""

def mentionStep (findUser accId display : String) (o : JObj) : JObj × Nat :=
  if typeIs o "mention" then
    match o.find "attrs" with
    | some (.obj a) =>
      if strIn (pyLower findUser) (pyLower (mentionText a)) then
        (o.set "attrs"
          (.obj ((a.set "id" (.str accId)).set "text" (.str ("@" ++ display)))), 1)
      else (o, 0)
    | some _ => (o, 0)
    | none => (o, 0)
  else (o, 0)

theorem mentionStep_mcount (findUser accId display : String) (o : JObj) :
    mcountO (mentionStep findUser accId display o).1 ≤ mcountO o := by
  unfold mentionStep
  by_cases ht : typeIs o "mention" = true
  · simp only [ht, if_true]
    cases h : o.find "attrs" with
    | none => simp
    | some v =>
      cases v with
      | obj a =>
        by_cases hin : strIn (pyLower findUser) (pyLower (mentionText a)) = true
        · simp only [hin, if_true]
          refine mcountO_set_obj_le o "attrs" a _ h ?_
          calc mcountO ((a.set "id" (.str accId)).set "text" (.str ("@" ++ display)))
              ≤ mcountO (a.set "id" (.str accId)) :=
                mcountO_set_zero_le _ _ _ (by simp [mcountV])
            _ ≤ mcountO a := mcountO_set_zero_le _ _ _ (by simp [mcountV])
        · simp [hin]
      | null => simp
      | bool b => simp
      | num n => simp
      | str s => simp
      | arr l => simp
  · simp [ht]

mutual

def mentionsV (findUser accId display : String) : JVal → JVal × Nat
  | .obj o =>
    let s0 := mentionStep findUser accId display o
    let p := mentionsO findUser accId display s0.1
    (.obj p.1, s0.2 + p.2)
  | .arr l =>
    let p := mentionsL findUser accId display l
    (.arr p.1, p.2)
  | .null => (.null, 0)
  | .bool b => (.bool b, 0)
  | .num n => (.num n, 0)
  | .str s => (.str s, 0)
termination_by v => (mcountV v, msizeV v)
decreasing_by
  all_goals refine natLex ?_
  · left
    have := mentionStep_mcount findUser accId display o
    simp only [mcountV]
    omega
  · left
    simp [mcountV]

def mentionsL (findUser accId display : String) : JList → JList × Nat
  | .nil => (.nil, 0)
  | .cons v t =>
    let p := mentionsV findUser accId display v
    let q := mentionsL findUser accId display t
    (.cons p.1 q.1, p.2 + q.2)
termination_by l => (mcountL l, msizeL l)
decreasing_by
  all_goals refine natLex ?_
  all_goals right
  all_goals constructor
  all_goals simp [mcountL, msizeL]
  all_goals omega

def mentionsO (findUser accId display : String) : JObj → JObj × Nat
  | .nil => (.nil, 0)
  | .cons k v t =>
    let p := mentionsV findUser accId display v
    let q := mentionsO findUser accId display t
    (.cons k p.1 q.1, p.2 + q.2)
termination_by o => (mcountO o, msizeO o)
decreasing_by
  all_goals refine natLex ?_
  all_goals right
  all_goals constructor
  all_goals simp [mcountO, msizeO]
  all_goals omega

end

/-! ## Task toggle (`_update_tasks` in `confluence_update_task`)

A dict is rewritten when its type is `"taskItem"`, it has an `attrs` key
and the lowercased `task_text` occurs in the lowercased, stripped rendering
of the whole node; `attrs["state"]` is then set in place before the node's
values are iterated. -/

def taskStep (taskText state : String) (o : JObj) : JObj × Nat :=
  if typeIs o "taskItem" then
    match o.find "attrs" with
    | some (.obj a) =>
      if strIn (pyLower taskText) (pyLower (pyStrip (extractV (.obj o) 0))) then
        (o.set "attrs" (.obj (a.set "state" (.str state))), 1)
      else (o, 0)
    | some _ => (o, 0)
    | none => (o, 0)
  else (o, 0)

theorem taskStep_mcount (taskText state : String) (o : JObj) :
    mcountO (taskStep taskText state o).1 ≤ mcountO o := by
  unfold taskStep
  by_cases ht : typeIs o "taskItem" = true
  · simp only [ht, if_true]
    cases h : o.find "attrs" with
    | none => simp
    | some v =>
      cases v with
      | obj a =>
        by_cases hin :
            strIn (pyLower taskText) (pyLower (pyStrip (extractV (.obj o) 0))) = true
        · simp only [hin, if_true]
          exact mcountO_set_obj_le o "attrs" a _ h
            (mcountO_set_zero_le _ _ _ (by simp [mcountV]))
        · simp [hin]
      | null => simp
      | bool b => simp
      | num n => simp
      | str s => simp
      | arr l => simp
  · simp [ht]

mutual

def tasksV (taskText state : String) : JVal → JVal × Nat
  | .obj o =>
    let s0 := taskStep taskText state o
    let p := tasksO taskText state s0.1
    (.obj p.1, s0.2 + p.2)
  | .arr l =>
    let p := tasksL taskText state l
    (.arr p.1, p.2)
  | .null => (.null, 0)
  | .bool b => (.bool b, 0)
  | .num n => (.num n, 0)
  | .str s => (.str s, 0)
termination_by v => (mcountV v, msizeV v)
decreasing_by
  all_goals refine natLex ?_
  · left
    have := taskStep_mcount taskText state o
    simp only [mcountV]
    omega
  · left
    simp [mcountV]

def tasksL (taskText state : String) : JList → JList × Nat
  | .nil => (.nil, 0)
  | .cons v t =>
    let p := tasksV taskText state v
    let q := tasksL taskText state t
    (.cons p.1 q.1, p.2 + q.2)
termination_by l => (mcountL l, msizeL l)
decreasing_by
  all_goals refine natLex ?_
  all_goals right
  all_goals constructor
  all_goals simp [mcountL, msizeL]
  all_goals omega

def tasksO (taskText state : String) : JObj → JObj × Nat
  | .nil => (.nil, 0)
  | .cons k v t =>
    let p := tasksV taskText state v
    let q := tasksO taskText state t
    (.cons k p.1 q.1, p.2 + q.2)
termination_by o => (mcountO o, msizeO o)
decreasing_by
  all_goals refine natLex ?_
  all_goals right
  all_goals constructor
  all_goals simp [mcountO, msizeO]
  all_goals omega

end

/-! ## Erasing the mutable field of a node kind

`eraseV kd fld` nulls the `fld` entry of every dict whose type is `kd`,
leaving everything else intact.  Each mutation walk only rewrites that one
field of that one node kind, so composing a walk with the matching erasure
gives back the erasure of the original tree: every other node, key, child
and ordering survives the mutation. -/

def eraseKind (kd fld : String) (o : JObj) : JObj :=
  if typeIs o kd then o.set fld .null else o

theorem eraseKind_mcount (kd fld : String) (o : JObj) :
    mcountO (eraseKind kd fld o) ≤ mcountO o := by
  unfold eraseKind
  by_cases ht : typeIs o kd = true
  · simp only [ht, if_true]
    exact mcountO_set_zero_le _ _ _ (by simp [mcountV])
  · simp [ht]

mutual

def eraseV (kd fld : String) : JVal → JVal
  | .obj o => .obj (eraseO kd fld (eraseKind kd fld o))
  | .arr l => .arr (eraseL kd fld l)
  | .null => .null
  | .bool b => .bool b
  | .num n => .num n
  | .str s => .str s
termination_by v => (mcountV v, msizeV v)
decreasing_by
  all_goals refine natLex ?_
  · left
    have := eraseKind_mcount kd fld o
    simp only [mcountV]
    omega
  · left
    simp [mcountV]

def eraseL (kd fld : String) : JList → JList
  | .nil => .nil
  | .cons v t => .cons (eraseV kd fld v) (eraseL kd fld t)
termination_by l => (mcountL l, msizeL l)
decreasing_by
  all_goals refine natLex ?_
  all_goals right
  all_goals constructor
  all_goals simp [mcountL, msizeL]
  all_goals omega

def eraseO (kd fld : String) : JObj → JObj
  | .nil => .nil
  | .cons k v t => .cons k (eraseV kd fld v) (eraseO kd fld t)
termination_by o => (mcountO o, msizeO o)
decreasing_by
  all_goals refine natLex ?_
  all_goals right
  all_goals constructor
  all_goals simp [mcountO, msizeO]
  all_goals omega

end

/-! ## Link insertion (`_insert_after` in `confluence_add_link`)

With a non-empty `after_text` the walk finds the first text node containing
it and replaces that one child in its parent's `content` list with up to
four nodes: the text before and including the match (when non-empty,
copying the original marks), a single-space text node, the link node, and
the remainder (when non-empty, again with the marks).  A dict with a
`content` key only ever recurses into that list; the `inserted` flag stops
the walk after the first splice. -/

/-- Python `text.index(sub)`: index of the first occurrence (the caller
checks `sub in text` first, so the not-found value is irrelevant). -/
def pyFindPos (sub : List Char) : List Char → Nat
  | [] => 0
  | c :: rest => if sub.isPrefixOf (c :: rest) then 0 else 1 + pyFindPos sub rest

/-- The replacement nodes spliced in place of the matched text child `co`
whose payload is `s` (`new_nodes` in the source). -/
def spliceNodes (afterText : String) (link : JVal) (co : JObj) (s : String) :
    List JVal :=
  let idx := pyFindPos afterText.data s.data + afterText.length
  let before := String.mk (s.data.take idx)
  let after := String.mk (s.data.drop idx)
  let withMarks : JObj → JObj := fun n =>
    match co.find "marks" with
    | some m => n.set "marks" m
    | none => n
  (if before ≠ "" then
      [.obj (withMarks (.cons "type" (.str "text") (.cons "text" (.str before) .nil)))]
    else []) ++
  [textNode " ", link] ++
  (if after ≠ "" then
      [.obj (withMarks (.cons "type" (.str "text") (.cons "text" (.str after) .nil)))]
    else [])

/-- The first `for i, child in enumerate(content)` loop: splice at the first
matching text child, or report `none` when no child matches.  `after_text`
is non-empty (the tool only defines the walk under `if after_text:`), so a
missing payload (`child.get("text", "")`) never matches. -/
def spliceLink (afterText : String) (link : JVal) : List JVal → Option (List JVal)
  | [] => none
  | child :: rest =>
    match child with
    | .obj co =>
      if typeIs co "text" then
        match co.find "text" with
        | some (.str s) =>
          if strIn afterText s then
            some (spliceNodes afterText link co s ++ rest)
          else (spliceLink afterText link rest).map (child :: ·)
        | _ => (spliceLink afterText link rest).map (child :: ·)
      else (spliceLink afterText link rest).map (child :: ·)
    | _ => (spliceLink afterText link rest).map (child :: ·)

mutual

def insertAfterV (afterText : String) (link : JVal) : JVal → Bool → JVal × Bool
  | v, true => (v, true)
  | .obj o, false =>
    match h : o.find "content" with
    | some (.arr l) =>
      match spliceLink afterText link l.toList with
      | some newContent =>
        (.obj (o.set "content" (.arr (JList.ofList newContent))), true)
      | none =>
        let p := insertAfterL afterText link l false
        (.obj (o.set "content" (.arr p.1)), p.2)
    | some (.obj _) => (.obj o, false)
    | some (.str _) => (.obj o, false)
    | some (.num _) => (.obj o, false)
    | some (.bool _) => (.obj o, false)
    | some .null => (.obj o, false)
    | none =>
      let p := insertAfterO afterText link o false
      (.obj p.1, p.2)
  | .arr l, false =>
    let p := insertAfterL afterText link l false
    (.arr p.1, p.2)
  | .null, false => (.null, false)
  | .bool b, false => (.bool b, false)
  | .num n, false => (.num n, false)
  | .str s, false => (.str s, false)
termination_by v _ => 2 * msizeV v
decreasing_by
  · have := find_msize o "content" (.arr l) h
    simp only [msizeV] at *
    omega
  · simp [msizeV]
  · simp [msizeV]
    omega

def insertAfterL (afterText : String) (link : JVal) : JList → Bool → JList × Bool
  | .nil, ins => (.nil, ins)
  | .cons v t, ins =>
    let p := insertAfterV afterText link v ins
    let q := insertAfterL afterText link t p.2
    (.cons p.1 q.1, q.2)
termination_by l _ => 2 * msizeL l + 1
decreasing_by
  all_goals simp [msizeL]
  all_goals omega

def insertAfterO (afterText : String) (link : JVal) : JObj → Bool → JObj × Bool
  | .nil, ins => (.nil, ins)
  | .cons k v t, ins =>
    let p := insertAfterV afterText link v ins
    let q := insertAfterO afterText link t p.2
    (.cons k p.1 q.1, q.2)
termination_by o _ => 2 * msizeO o
decreasing_by
  all_goals simp [msizeO]
  all_goals omega

end

/-! ## Structural-preservation lemmas

Setting one key commutes with the entrywise walks; erasing the mutable
field then cancels the one mutation a walk performs. -/

theorem boolExt {a b : Bool} (h : a = true ↔ b = true) : a = b := by
  cases a <;> cases b <;> simp_all

theorem find_set_ne (o : JObj) (k1 k2 : String) (w : JVal) (h : k1 ≠ k2) :
    (o.set k1 w).find k2 = o.find k2 := by
  match o with
  | .nil =>
    have h2 : ¬(k1 = k2) := h
    simp [JObj.set, JObj.find, h2]
  | .cons k3 v t =>
    by_cases hk : k3 = k1
    · subst hk
      have h2 : ¬(k3 = k2) := h
      simp [JObj.set, JObj.find, h2]
    · by_cases hk2 : k3 = k2
      · subst hk2
        rw [JObj.set, if_neg hk]
        simp [JObj.find]
      · simp [JObj.set, JObj.find, hk, hk2, find_set_ne t k1 k2 w h]
termination_by sizeOf o

theorem set_set_same (o : JObj) (k : String) (a b : JVal) :
    (o.set k a).set k b = o.set k b := by
  match o with
  | .nil => simp [JObj.set]
  | .cons k2 v t =>
    by_cases hk : k2 = k
    · simp [JObj.set, hk]
    · simp [JObj.set, hk, set_set_same t k a b]
termination_by sizeOf o

theorem eraseO_set (kd fld : String) (o : JObj) (k : String) (w : JVal) :
    eraseO kd fld (o.set k w) = (eraseO kd fld o).set k (eraseV kd fld w) := by
  match o with
  | .nil => simp [JObj.set, eraseO]
  | .cons k2 v t =>
    by_cases hk : k2 = k
    · simp [JObj.set, hk, eraseO]
    · simp [JObj.set, hk, eraseO, eraseO_set kd fld t k w]
termination_by sizeOf o

/-- A walk step that leaves the dict alone also leaves the erasure alone. -/
theorem erase_step_congr (kd fld : String) (p q : JObj)
    (htp : typeIs p kd = typeIs q kd) (hO : eraseO kd fld p = eraseO kd fld q) :
    eraseO kd fld (eraseKind kd fld p) = eraseO kd fld (eraseKind kd fld q) := by
  unfold eraseKind
  rw [htp]
  by_cases ht : typeIs q kd = true
  · rw [if_pos ht, if_pos ht, eraseO_set, eraseO_set, hO]
  · rw [if_neg ht, if_neg ht]
    exact hO

/-- A walk step that rewrites the erased field of a target-kind dict is
cancelled by the erasure. -/
theorem erase_trig (kd fld : String) (hne : fld ≠ "type") (p q : JObj) (w : JVal)
    (htq : typeIs q kd = true) (htp : typeIs p kd = typeIs q kd)
    (hO : eraseO kd fld p = eraseO kd fld q) :
    eraseO kd fld (eraseKind kd fld (p.set fld w)) = eraseO kd fld (eraseKind kd fld q) := by
  have htp2 : typeIs (p.set fld w) kd = true := by
    unfold typeIs at htp htq ⊢
    rw [find_set_ne p fld "type" w hne, htp]
    exact htq
  unfold eraseKind
  rw [if_pos htp2, if_pos htq, set_set_same, eraseO_set, eraseO_set, hO]

theorem mentionsO_find (f a d : String) (o : JObj) (key : String) :
    ((mentionsO f a d o).1).find key =
      (o.find key).map (fun v => (mentionsV f a d v).1) := by
  match o with
  | .nil => simp [mentionsO, JObj.find]
  | .cons k v t =>
    by_cases hk : k = key
    · simp [mentionsO, JObj.find, hk]
    · simp [mentionsO, JObj.find, hk, mentionsO_find f a d t key]
termination_by sizeOf o

theorem mentionsO_typeIs (f a d : String) (o : JObj) (t : String) :
    typeIs ((mentionsO f a d o).1) t = typeIs o t := by
  unfold typeIs
  rw [mentionsO_find]
  cases hv : o.find "type" with
  | none => rfl
  | some v =>
    refine boolExt ?_
    simp only [Option.map_some', beq_iff_eq, Option.some.injEq]
    cases v <;> simp [mentionsV]

theorem mentionsO_set (f a d : String) (o : JObj) (k : String) (w : JVal) :
    (mentionsO f a d (o.set k w)).1 =
      ((mentionsO f a d o).1).set k ((mentionsV f a d w).1) := by
  match o with
  | .nil => simp [JObj.set, mentionsO]
  | .cons k2 v t =>
    by_cases hk : k2 = k
    · simp [JObj.set, hk, mentionsO]
    · simp [JObj.set, hk, mentionsO, mentionsO_set f a d t k w]
termination_by sizeOf o

theorem tasksO_find (tt st : String) (o : JObj) (key : String) :
    ((tasksO tt st o).1).find key = (o.find key).map (fun v => (tasksV tt st v).1) := by
  match o with
  | .nil => simp [tasksO, JObj.find]
  | .cons k v t =>
    by_cases hk : k = key
    · simp [tasksO, JObj.find, hk]
    · simp [tasksO, JObj.find, hk, tasksO_find tt st t key]
termination_by sizeOf o

theorem tasksO_typeIs (tt st : String) (o : JObj) (t : String) :
    typeIs ((tasksO tt st o).1) t = typeIs o t := by
  unfold typeIs
  rw [tasksO_find]
  cases hv : o.find "type" with
  | none => rfl
  | some v =>
    refine boolExt ?_
    simp only [Option.map_some', beq_iff_eq, Option.some.injEq]
    cases v <;> simp [tasksV]

theorem tasksO_set (tt st : String) (o : JObj) (k : String) (w : JVal) :
    (tasksO tt st (o.set k w)).1 = ((tasksO tt st o).1).set k ((tasksV tt st w).1) := by
  match o with
  | .nil => simp [JObj.set, tasksO]
  | .cons k2 v t =>
    by_cases hk : k2 = k
    · simp [JObj.set, hk, tasksO]
    · simp [JObj.set, hk, tasksO, tasksO_set tt st t k w]
termination_by sizeOf o

theorem regexO_find (sub : String → String × Nat) (o : JObj) (key : String) :
    ((regexO sub o).1).find key = (o.find key).map (fun v => (regexV sub v).1) := by
  match o with
  | .nil => simp [regexO, JObj.find]
  | .cons k v t =>
    by_cases hk : k = key
    · simp [regexO, JObj.find, hk]
    · simp [regexO, JObj.find, hk, regexO_find sub t key]
termination_by sizeOf o

theorem regexO_typeIs (sub : String → String × Nat) (o : JObj) (t : String) :
    typeIs ((regexO sub o).1) t = typeIs o t := by
  unfold typeIs
  rw [regexO_find]
  cases hv : o.find "type" with
  | none => rfl
  | some v =>
    refine boolExt ?_
    simp only [Option.map_some', beq_iff_eq, Option.some.injEq]
    cases v <;> simp [regexV]

theorem regexO_set (sub : String → String × Nat) (o : JObj) (k : String) (w : JVal) :
    (regexO sub (o.set k w)).1 = ((regexO sub o).1).set k ((regexV sub w).1) := by
  match o with
  | .nil => simp [JObj.set, regexO]
  | .cons k2 v t =>
    by_cases hk : k2 = k
    · simp [JObj.set, hk, regexO]
    · simp [JObj.set, hk, regexO, regexO_set sub t k w]
termination_by sizeOf o

theorem replaceTextO_typeIs (f r : String) (al : Bool) (o : JObj) (c : Nat) (fd : Bool)
    (t : String) :
    typeIs ((replaceTextO f r al o c fd).1) t = typeIs o t := by
  match o with
  | .nil => simp [replaceTextO]
  | .cons k v tl =>
    simp only [replaceTextO]
    unfold typeIs
    simp only [JObj.find]
    by_cases hk : k = "type"
    · rw [if_pos hk, if_pos hk]
      refine boolExt ?_
      simp only [beq_iff_eq, Option.some.injEq]
      cases v <;> simp [replaceTextV]
    · rw [if_neg hk, if_neg hk]
      exact replaceTextO_typeIs f r al tl _ _ t
termination_by sizeOf o

/-! ## Erasure-preservation theorems

Composing each field-mutation walk with the erasure of its target kind's
mutable field gives back the erasure of the input: apart from that one
field of that one node kind, the walks preserve every node, key, child and
their order. -/

mutual

theorem eraseMenV (fu ai di : String) (v : JVal) :
    eraseV "mention" "attrs" ((mentionsV fu ai di v).1) = eraseV "mention" "attrs" v := by
  match v with
  | .null => simp [mentionsV]
  | .bool b => simp [mentionsV]
  | .num n => simp [mentionsV]
  | .str s => simp [mentionsV]
  | .arr l =>
    simp only [mentionsV, eraseV]
    rw [eraseMenL fu ai di l]
  | .obj o =>
    simp only [mentionsV, eraseV, JVal.obj.injEq]
    by_cases ht : typeIs o "mention" = true
    · cases ha : o.find "attrs" with
      | none =>
        have hstep : mentionStep fu ai di o = (o, 0) := by simp [mentionStep, ht, ha]
        rw [hstep]
        exact erase_step_congr _ _ _ _ (mentionsO_typeIs fu ai di o "mention")
          (eraseMenO fu ai di o)
      | some w =>
        match w with
        | .obj a =>
          by_cases hin : strIn (pyLower fu) (pyLower (mentionText a)) = true
          · have hstep : mentionStep fu ai di o =
                (o.set "attrs"
                  (.obj ((a.set "id" (.str ai)).set "text" (.str ("@" ++ di)))), 1) := by
              simp [mentionStep, ht, ha, hin]
            rw [hstep]
            dsimp only
            rw [mentionsO_set]
            exact erase_trig "mention" "attrs" (by decide) _ o _ ht
              (mentionsO_typeIs fu ai di o "mention") (eraseMenO fu ai di o)
          · have hstep : mentionStep fu ai di o = (o, 0) := by
              simp [mentionStep, ht, ha, hin]
            rw [hstep]
            exact erase_step_congr _ _ _ _ (mentionsO_typeIs fu ai di o "mention")
              (eraseMenO fu ai di o)
        | .null =>
          have hstep : mentionStep fu ai di o = (o, 0) := by simp [mentionStep, ht, ha]
          rw [hstep]
          exact erase_step_congr _ _ _ _ (mentionsO_typeIs fu ai di o "mention")
            (eraseMenO fu ai di o)
        | .bool b =>
          have hstep : mentionStep fu ai di o = (o, 0) := by simp [mentionStep, ht, ha]
          rw [hstep]
          exact erase_step_congr _ _ _ _ (mentionsO_typeIs fu ai di o "mention")
            (eraseMenO fu ai di o)
        | .num n =>
          have hstep : mentionStep fu ai di o = (o, 0) := by simp [mentionStep, ht, ha]
          rw [hstep]
          exact erase_step_congr _ _ _ _ (mentionsO_typeIs fu ai di o "mention")
            (eraseMenO fu ai di o)
        | .str s =>
          have hstep : mentionStep fu ai di o = (o, 0) := by simp [mentionStep, ht, ha]
          rw [hstep]
          exact erase_step_congr _ _ _ _ (mentionsO_typeIs fu ai di o "mention")
            (eraseMenO fu ai di o)
        | .arr l2 =>
          have hstep : mentionStep fu ai di o = (o, 0) := by simp [mentionStep, ht, ha]
          rw [hstep]
          exact erase_step_congr _ _ _ _ (mentionsO_typeIs fu ai di o "mention")
            (eraseMenO fu ai di o)
    · have hstep : mentionStep fu ai di o = (o, 0) := by simp [mentionStep, ht]
      rw [hstep]
      exact erase_step_congr _ _ _ _ (mentionsO_typeIs fu ai di o "mention")
        (eraseMenO fu ai di o)
termination_by sizeOf v

theorem eraseMenL (fu ai di : String) (l : JList) :
    eraseL "mention" "attrs" ((mentionsL fu ai di l).1) = eraseL "mention" "attrs" l := by
  match l with
  | .nil => simp [mentionsL]
  | .cons v t =>
    simp only [mentionsL, eraseL]
    rw [eraseMenV fu ai di v, eraseMenL fu ai di t]
termination_by sizeOf l

theorem eraseMenO (fu ai di : String) (o : JObj) :
    eraseO "mention" "attrs" ((mentionsO fu ai di o).1) = eraseO "mention" "attrs" o := by
  match o with
  | .nil => simp [mentionsO]
  | .cons k v t =>
    simp only [mentionsO, eraseO]
    rw [eraseMenV fu ai di v, eraseMenO fu ai di t]
termination_by sizeOf o

end

mutual

theorem eraseTskV (tt st : String) (v : JVal) :
    eraseV "taskItem" "attrs" ((tasksV tt st v).1) = eraseV "taskItem" "attrs" v := by
  match v with
  | .null => simp [tasksV]
  | .bool b => simp [tasksV]
  | .num n => simp [tasksV]
  | .str s => simp [tasksV]
  | .arr l =>
    simp only [tasksV, eraseV]
    rw [eraseTskL tt st l]
  | .obj o =>
    simp only [tasksV, eraseV, JVal.obj.injEq]
    by_cases ht : typeIs o "taskItem" = true
    · cases ha : o.find "attrs" with
      | none =>
        have hstep : taskStep tt st o = (o, 0) := by simp [taskStep, ht, ha]
        rw [hstep]
        exact erase_step_congr _ _ _ _ (tasksO_typeIs tt st o "taskItem")
          (eraseTskO tt st o)
      | some w =>
        match w with
        | .obj a =>
          by_cases hin :
              strIn (pyLower tt) (pyLower (pyStrip (extractV (.obj o) 0))) = true
          · have hstep : taskStep tt st o =
                (o.set "attrs" (.obj (a.set "state" (.str st))), 1) := by
              simp [taskStep, ht, ha, hin]
            rw [hstep]
            dsimp only
            rw [tasksO_set]
            exact erase_trig "taskItem" "attrs" (by decide) _ o _ ht
              (tasksO_typeIs tt st o "taskItem") (eraseTskO tt st o)
          · have hstep : taskStep tt st o = (o, 0) := by
              simp [taskStep, ht, ha, hin]
            rw [hstep]
            exact erase_step_congr _ _ _ _ (tasksO_typeIs tt st o "taskItem")
              (eraseTskO tt st o)
        | .null =>
          have hstep : taskStep tt st o = (o, 0) := by simp [taskStep, ht, ha]
          rw [hstep]
          exact erase_step_congr _ _ _ _ (tasksO_typeIs tt st o "taskItem")
            (eraseTskO tt st o)
        | .bool b =>
          have hstep : taskStep tt st o = (o, 0) := by simp [taskStep, ht, ha]
          rw [hstep]
          exact erase_step_congr _ _ _ _ (tasksO_typeIs tt st o "taskItem")
            (eraseTskO tt st o)
        | .num n =>
          have hstep : taskStep tt st o = (o, 0) := by simp [taskStep, ht, ha]
          rw [hstep]
          exact erase_step_congr _ _ _ _ (tasksO_typeIs tt st o "taskItem")
            (eraseTskO tt st o)
        | .str s =>
          have hstep : taskStep tt st o = (o, 0) := by simp [taskStep, ht, ha]
          rw [hstep]
          exact erase_step_congr _ _ _ _ (tasksO_typeIs tt st o "taskItem")
            (eraseTskO tt st o)
        | .arr l2 =>
          have hstep : taskStep tt st o = (o, 0) := by simp [taskStep, ht, ha]
          rw [hstep]
          exact erase_step_congr _ _ _ _ (tasksO_typeIs tt st o "taskItem")
            (eraseTskO tt st o)
    · have hstep : taskStep tt st o = (o, 0) := by simp [taskStep, ht]
      rw [hstep]
      exact erase_step_congr _ _ _ _ (tasksO_typeIs tt st o "taskItem")
        (eraseTskO tt st o)
termination_by sizeOf v

theorem eraseTskL (tt st : String) (l : JList) :
    eraseL "taskItem" "attrs" ((tasksL tt st l).1) = eraseL "taskItem" "attrs" l := by
  match l with
  | .nil => simp [tasksL]
  | .cons v t =>
    simp only [tasksL, eraseL]
    rw [eraseTskV tt st v, eraseTskL tt st t]
termination_by sizeOf l

theorem eraseTskO (tt st : String) (o : JObj) :
    eraseO "taskItem" "attrs" ((tasksO tt st o).1) = eraseO "taskItem" "attrs" o := by
  match o with
  | .nil => simp [tasksO]
  | .cons k v t =>
    simp only [tasksO, eraseO]
    rw [eraseTskV tt st v, eraseTskO tt st t]
termination_by sizeOf o

end

mutual

theorem eraseRexV (sub : String → String × Nat) (v : JVal) :
    eraseV "text" "text" ((regexV sub v).1) = eraseV "text" "text" v := by
  match v with
  | .null => simp [regexV]
  | .bool b => simp [regexV]
  | .num n => simp [regexV]
  | .str s => simp [regexV]
  | .arr l =>
    simp only [regexV, eraseV]
    rw [eraseRexL sub l]
  | .obj o =>
    simp only [regexV, eraseV, JVal.obj.injEq]
    by_cases ht : typeIs o "text" = true
    · cases hx : o.find "text" with
      | none =>
        have hstep : regexStep sub o = (o, 0) := by simp [regexStep, ht, hx]
        rw [hstep]
        exact erase_step_congr _ _ _ _ (regexO_typeIs sub o "text") (eraseRexO sub o)
      | some w =>
        match w with
        | .str s =>
          by_cases hn : 0 < (sub s).2
          · have hstep : regexStep sub o = (o.set "text" (.str (sub s).1), (sub s).2) := by
              simp [regexStep, ht, hx, hn]
            rw [hstep]
            dsimp only
            rw [regexO_set]
            exact erase_trig "text" "text" (by decide) _ o _ ht
              (regexO_typeIs sub o "text") (eraseRexO sub o)
          · have hstep : regexStep sub o = (o, 0) := by simp [regexStep, ht, hx, hn]
            rw [hstep]
            exact erase_step_congr _ _ _ _ (regexO_typeIs sub o "text") (eraseRexO sub o)
        | .null =>
          have hstep : regexStep sub o = (o, 0) := by simp [regexStep, ht, hx]
          rw [hstep]
          exact erase_step_congr _ _ _ _ (regexO_typeIs sub o "text") (eraseRexO sub o)
        | .bool b =>
          have hstep : regexStep sub o = (o, 0) := by simp [regexStep, ht, hx]
          rw [hstep]
          exact erase_step_congr _ _ _ _ (regexO_typeIs sub o "text") (eraseRexO sub o)
        | .num n =>
          have hstep : regexStep sub o = (o, 0) := by simp [regexStep, ht, hx]
          rw [hstep]
          exact erase_step_congr _ _ _ _ (regexO_typeIs sub o "text") (eraseRexO sub o)
        | .obj p =>
          have hstep : regexStep sub o = (o, 0) := by simp [regexStep, ht, hx]
          rw [hstep]
          exact erase_step_congr _ _ _ _ (regexO_typeIs sub o "text") (eraseRexO sub o)
        | .arr l2 =>
          have hstep : regexStep sub o = (o, 0) := by simp [regexStep, ht, hx]
          rw [hstep]
          exact erase_step_congr _ _ _ _ (regexO_typeIs sub o "text") (eraseRexO sub o)
    · have hstep : regexStep sub o = (o, 0) := by simp [regexStep, ht]
      rw [hstep]
      exact erase_step_congr _ _ _ _ (regexO_typeIs sub o "text") (eraseRexO sub o)
termination_by sizeOf v

theorem eraseRexL (sub : String → String × Nat) (l : JList) :
    eraseL "text" "text" ((regexL sub l).1) = eraseL "text" "text" l := by
  match l with
  | .nil => simp [regexL]
  | .cons v t =>
    simp only [regexL, eraseL]
    rw [eraseRexV sub v, eraseRexL sub t]
termination_by sizeOf l

theorem eraseRexO (sub : String → String × Nat) (o : JObj) :
    eraseO "text" "text" ((regexO sub o).1) = eraseO "text" "text" o := by
  match o with
  | .nil => simp [regexO]
  | .cons k v t =>
    simp only [regexO, eraseO]
    rw [eraseRexV sub v, eraseRexO sub t]
termination_by sizeOf o

end

mutual

theorem eraseTxtV (f r : String) (al : Bool) (v : JVal) (c : Nat) (fd : Bool) :
    eraseV "text" "text" ((replaceTextV f r al v c fd).1) = eraseV "text" "text" v := by
  match v with
  | .null => simp [replaceTextV]
  | .bool b => simp [replaceTextV]
  | .num n => simp [replaceTextV]
  | .str s => simp [replaceTextV]
  | .arr l =>
    simp only [replaceTextV, eraseV]
    rw [eraseTxtL f r al l c fd]
  | .obj o =>
    simp only [replaceTextV, eraseV, JVal.obj.injEq]
    by_cases ht : typeIs o "text" = true
    · cases hx : o.find "text" with
      | none =>
        have hstep : textStep f r al o c fd = (o, c, fd) := by simp [textStep, ht, hx]
        rw [hstep]
        exact erase_step_congr _ _ _ _ (replaceTextO_typeIs f r al o c fd "text")
          (eraseTxtO f r al o c fd)
      | some w =>
        match w with
        | .str s =>
          by_cases hin : strIn f s = true
          · by_cases hal : al = true
            · have hstep : textStep f r al o c fd =
                  (o.set "text" (.str (pyReplace f r s)), c + pyCount f s, true) := by
                simp [textStep, ht, hx, hin, hal]
              rw [hstep]
              dsimp only
              rw [replaceTextO_set_str f r al o "text" s _ hx]
              dsimp only
              exact erase_trig "text" "text" (by decide) _ o _ ht
                (replaceTextO_typeIs f r al o _ _ "text") (eraseTxtO f r al o _ _)
            · by_cases hc : c = 0
              · have hstep : textStep f r al o c fd =
                    (o.set "text" (.str (pyReplace1 f r s)), 1, true) := by
                  simp [textStep, ht, hx, hin, hal, hc]
                rw [hstep]
                dsimp only
                rw [replaceTextO_set_str f r al o "text" s _ hx]
                dsimp only
                exact erase_trig "text" "text" (by decide) _ o _ ht
                  (replaceTextO_typeIs f r al o _ _ "text") (eraseTxtO f r al o _ _)
              · have hstep : textStep f r al o c fd = (o, c, true) := by
                  simp [textStep, ht, hx, hin, hal, hc]
                rw [hstep]
                exact erase_step_congr _ _ _ _ (replaceTextO_typeIs f r al o c true "text")
                  (eraseTxtO f r al o c true)
          · have hstep : textStep f r al o c fd = (o, c, fd) := by
              simp [textStep, ht, hx, hin]
            rw [hstep]
            exact erase_step_congr _ _ _ _ (replaceTextO_typeIs f r al o c fd "text")
              (eraseTxtO f r al o c fd)
        | .null =>
          have hstep : textStep f r al o c fd = (o, c, fd) := by simp [textStep, ht, hx]
          rw [hstep]
          exact erase_step_congr _ _ _ _ (replaceTextO_typeIs f r al o c fd "text")
            (eraseTxtO f r al o c fd)
        | .bool b =>
          have hstep : textStep f r al o c fd = (o, c, fd) := by simp [textStep, ht, hx]
          rw [hstep]
          exact erase_step_congr _ _ _ _ (replaceTextO_typeIs f r al o c fd "text")
            (eraseTxtO f r al o c fd)
        | .num n =>
          have hstep : textStep f r al o c fd = (o, c, fd) := by simp [textStep, ht, hx]
          rw [hstep]
          exact erase_step_congr _ _ _ _ (replaceTextO_typeIs f r al o c fd "text")
            (eraseTxtO f r al o c fd)
        | .obj p =>
          have hstep : textStep f r al o c fd = (o, c, fd) := by simp [textStep, ht, hx]
          rw [hstep]
          exact erase_step_congr _ _ _ _ (replaceTextO_typeIs f r al o c fd "text")
            (eraseTxtO f r al o c fd)
        | .arr l2 =>
          have hstep : textStep f r al o c fd = (o, c, fd) := by simp [textStep, ht, hx]
          rw [hstep]
          exact erase_step_congr _ _ _ _ (replaceTextO_typeIs f r al o c fd "text")
            (eraseTxtO f r al o c fd)
    · have hstep : textStep f r al o c fd = (o, c, fd) := by simp [textStep, ht]
      rw [hstep]
      exact erase_step_congr _ _ _ _ (replaceTextO_typeIs f r al o c fd "text")
        (eraseTxtO f r al o c fd)
termination_by sizeOf v

theorem eraseTxtL (f r : String) (al : Bool) (l : JList) (c : Nat) (fd : Bool) :
    eraseL "text" "text" ((replaceTextL f r al l c fd).1) = eraseL "text" "text" l := by
  match l with
  | .nil => simp [replaceTextL]
  | .cons v t =>
    simp only [replaceTextL, eraseL]
    rw [eraseTxtV f r al v c fd, eraseTxtL f r al t _ _]
termination_by sizeOf l

theorem eraseTxtO (f r : String) (al : Bool) (o : JObj) (c : Nat) (fd : Bool) :
    eraseO "text" "text" ((replaceTextO f r al o c fd).1) = eraseO "text" "text" o := by
  match o with
  | .nil => simp [replaceTextO]
  | .cons k v t =>
    simp only [replaceTextO, eraseO]
    rw [eraseTxtV f r al v c fd, eraseTxtO f r al t _ _]
termination_by sizeOf o

end

/-! ## C7: structural preservation outside the target kind -/

/-- The link node `confluence_add_link` builds for link text `"L"` and
url `"u"`. -/
def linkCex : JVal :=
  .obj (.cons "type" (.str "text") (.cons "text" (.str "L")
    (.cons "marks" (.arr (.cons (.obj (.cons "type" (.str "link")
      (.cons "attrs" (.obj (.cons "href" (.str "u") .nil)) .nil))) .nil)) .nil)))

def linkDocCex : JVal := docNode [paragraphS "hello world"]

/-- A node's number of children (length of its `content` list). -/
def childCount (v : JVal) : Nat :=
  match v with
  | .obj o =>
    match o.find "content" with
    | some (.arr l) => l.toList.length
    | _ => 0
  | _ => 0

/-- A node's first child. -/
def firstChild (v : JVal) : Option JVal :=
  match v with
  | .obj o =>
    match o.find "content" with
    | some (.arr (.cons c _)) => some c
    | _ => none
  | _ => none

/-- A node's kind discriminant. -/
def nodeTypeOf (v : JVal) : String :=
  match v with
  | .obj o => nodeType o
  | _ => ""

/-- C7 counterexample: the link-insertion operation of `confluence_add_link`
(quantified over by "every mutation operation") does not preserve the child
count of non-target nodes: inserting a link after `"hello"` in a document
whose paragraph holds the single text node `"hello world"` leaves the
paragraph's kind intact but grows its `content` from one child to four
(before-text, a space text node, the link, and the remainder). -/
theorem c7_structure_counterexample :
    (firstChild linkDocCex).map childCount = some 1 ∧
    (firstChild linkDocCex).map nodeTypeOf = some "paragraph" ∧
    (firstChild (insertAfterV "hello" linkCex linkDocCex false).1).map nodeTypeOf =
      some "paragraph" ∧
    (firstChild (insertAfterV "hello" linkCex linkDocCex false).1).map childCount =
      some 4 := by
  refine ⟨?_, ?_, ?_, ?_⟩
  · simp [linkDocCex, docNode, paragraphS, textNode, JList.ofList, firstChild, childCount,
      JObj.find, JList.toList]
  · simp [linkDocCex, docNode, paragraphS, textNode, JList.ofList, firstChild, nodeTypeOf,
      nodeType, JObj.find]
  · simp [linkDocCex, docNode, paragraphS, textNode, JList.ofList,
      insertAfterV, insertAfterL, insertAfterO, spliceLink, spliceNodes,
      typeIs, JObj.find, JObj.set, firstChild, nodeTypeOf, nodeType, JList.toList, linkCex]
    decide
  · simp [linkDocCex, docNode, paragraphS, textNode, JList.ofList,
      insertAfterV, insertAfterL, insertAfterO, spliceLink, spliceNodes,
      typeIs, JObj.find, JObj.set, firstChild, childCount, JList.toList, linkCex]
    decide

/-- C7 (amended): each of the four field-rewriting walks — substring
replace (`_replace_text`), regex replace (`_regex_replace`), mention swap
(`_replace_mentions`) and task toggle (`_update_tasks`) — preserves the
whole tree apart from the one mutable field of its target kind: nulling
that field of every target-kind dict (`eraseV`) gives the same tree before
and after the walk, so every other node keeps its kind, its keys, its
children and their order.  Link insertion and the table edits are excluded:
they splice or replace whole subtrees (see the counterexample). -/
theorem c7_nontarget_preservation :
    (∀ (f r : String) (al : Bool) (v : JVal) (c : Nat) (fd : Bool),
      eraseV "text" "text" ((replaceTextV f r al v c fd).1) = eraseV "text" "text" v) ∧
    (∀ (sub : String → String × Nat) (v : JVal),
      eraseV "text" "text" ((regexV sub v).1) = eraseV "text" "text" v) ∧
    (∀ (fu ai di : String) (v : JVal),
      eraseV "mention" "attrs" ((mentionsV fu ai di v).1) =
        eraseV "mention" "attrs" v) ∧
    (∀ (tt st : String) (v : JVal),
      eraseV "taskItem" "attrs" ((tasksV tt st v).1) =
        eraseV "taskItem" "attrs" v) :=
  ⟨fun f r al v c fd => eraseTxtV f r al v c fd,
   fun sub v => eraseRexV sub v,
   fun fu ai di v => eraseMenV fu ai di v,
   fun tt st v => eraseTskV tt st v⟩

/-! ## C2: the optimistic push protocol (`_push_page_update`)

The HTTP environment is abstracted by three numbers: the status code the
remote answers to the first PUT, the version number a refetch reports, and
the status code of the second PUT (consulted only after a 409).  A
successful v2 PUT echoes the page stamped with the submitted version, so
the committed version is the version of the successful attempt.
`raise_for_status` (httpx) raises exactly for 4xx/5xx responses. -/

def raisesForStatus (s : Nat) : Bool := 400 ≤ s && s < 600

/-- `_push_page_update`: the list of versions stamped on successive PUT
attempts, and either the committed version or the surfaced error status. -/
def pushPageUpdate (known status1 remoteCurrent status2 : Nat) :
    List Nat × Except Nat Nat :=
  let v1 := known + 1
  if status1 = 409 then
    let v2 := remoteCurrent + 1
    if raisesForStatus status2 then ([v1, v2], .error status2)
    else ([v1, v2], .ok v2)
  else if raisesForStatus status1 then ([v1], .error status1)
  else ([v1], .ok v1)

/-- C2: `_push_page_update` first submits version known+1; on a 409 it
performs exactly one recovery (refetch, resubmit once at current+1, so the
attempt list is exactly `[known+1, current+1]`), surfaces any error of the
second attempt — including a second conflict — with no third attempt, and
surfaces a non-409 first-attempt error with a single attempt; with
known=1, a conflict, and a refetch reporting version 3, the committed
version is 4. -/
theorem c2_push_conflict_retry (known s1 rc s2 : Nat) :
    ((pushPageUpdate known s1 rc s2).1).head? = some (known + 1) ∧
    (s1 = 409 →
      (pushPageUpdate known s1 rc s2).1 = [known + 1, rc + 1] ∧
      (raisesForStatus s2 = true →
        (pushPageUpdate known s1 rc s2).2 = .error s2) ∧
      (raisesForStatus s2 = false →
        (pushPageUpdate known s1 rc s2).2 = .ok (rc + 1))) ∧
    (s1 ≠ 409 → raisesForStatus s1 = true →
      (pushPageUpdate known s1 rc s2).1 = [known + 1] ∧
      (pushPageUpdate known s1 rc s2).2 = .error s1) ∧
    (s1 ≠ 409 → raisesForStatus s1 = false →
      (pushPageUpdate known s1 rc s2).2 = .ok (known + 1)) := by
  unfold pushPageUpdate
  by_cases h1 : s1 = 409
  · by_cases h2 : raisesForStatus s2 = true
    · simp [h1, h2]
    · simp [h1, h2]
  · by_cases h3 : raisesForStatus s1 = true
    · simp [h1, h3]
    · simp [h1, h3]

theorem c2_push_conflict_retry_witness :
    (pushPageUpdate 1 409 3 200).1 = [2, 4] ∧
    (pushPageUpdate 1 409 3 200).2 = .ok 4 := by
  have h := (c2_push_conflict_retry 1 409 3 200).2.1 rfl
  exact ⟨h.1, h.2.2 (by decide)⟩

/-! ## C8: the cache is transactional against push failure

`confluence_push_page` reads the snapshot from the cache, pushes it via
`_push_page_update`, and only on success rewrites the cache through
`_cache_after_push`, which builds a complete replacement record from the
push response (`result["id"]`, `result["title"]`, the committed version,
the cached space id falling back to the response's, and the cached tree)
and writes it under the response's page id.  A missing snapshot or a push
failure leaves the cache store untouched.  The empty string stands for a
missing/None space id (both are falsy in `space_id or
result.get("spaceId")`). -/

structure Snapshot where
  id : String
  title : String
  version : Nat
  spaceId : String
  adf : JVal
deriving DecidableEq

/-- Reading a cache file (`_read_cache`): the store keyed by page id. -/
def storeGet : List (String × Snapshot) → String → Option Snapshot
  | [], _ => none
  | (k, s) :: t, key => if k = key then some s else storeGet t key

/-- Writing a cache file (`_write_cache`): overwrite or create. -/
def storeSet : List (String × Snapshot) → String → Snapshot → List (String × Snapshot)
  | [], key, s => [(key, s)]
  | (k, s0) :: t, key, s =>
    if k = key then (k, s) :: t else (k, s0) :: storeSet t key s

inductive PushOutcome
  | noCache
  | pushFailed (status : Nat)
  | pushed (version : Nat)
deriving DecidableEq

/-- `confluence_push_page`: read the cached snapshot (missing → message,
nothing else happens), push it, and on success replace the snapshot via
`_cache_after_push`; on failure the raised error skips the cache write. -/
def confluencePushPage (cache : List (String × Snapshot)) (pid : String)
    (status1 remoteCurrent status2 : Nat) (echoId echoTitle echoSpace : String) :
    List (String × Snapshot) × PushOutcome :=
  match storeGet cache pid with
  | none => (cache, .noCache)
  | some snap =>
    match (pushPageUpdate snap.version status1 remoteCurrent status2).2 with
    | .error st => (cache, .pushFailed st)
    | .ok v =>
      let newSnap : Snapshot :=
        { id := echoId, title := echoTitle, version := v,
          spaceId := if snap.spaceId = "" then echoSpace else snap.spaceId,
          adf := snap.adf }
      (storeSet cache echoId newSnap, .pushed v)

theorem storeGet_set_self (c : List (String × Snapshot)) (k : String) (s : Snapshot) :
    storeGet (storeSet c k s) k = some s := by
  match c with
  | [] => simp [storeGet, storeSet]
  | (k2, s2) :: t =>
    by_cases hk : k2 = k
    · simp [storeGet, storeSet, hk]
    · simp [storeGet, storeSet, hk, storeGet_set_self t k s]

theorem storeGet_set_ne (c : List (String × Snapshot)) (k k2 : String) (s : Snapshot)
    (h : k2 ≠ k) : storeGet (storeSet c k s) k2 = storeGet c k2 := by
  match c with
  | [] =>
    have h2 : ¬(k = k2) := fun he => h he.symm
    simp [storeGet, storeSet, h2]
  | (k3, s3) :: t =>
    by_cases hk : k3 = k
    · subst hk
      have h2 : ¬(k3 = k2) := fun he => h (he.symm.trans rfl) |>.elim
      simp [storeGet, storeSet, h2]
    · by_cases hk2 : k3 = k2
      · subst hk2
        rw [storeSet, if_neg hk]
        simp [storeGet]
      · simp [storeGet, storeSet, hk, hk2, storeGet_set_ne t k k2 s h]

/-- C8: if the cached snapshot is missing, or the push errors (second
conflict or any other failure on either attempt), the cache store is
exactly its pre-push state; only on push success is the snapshot replaced
in full — new id, new title, committed version, space id (cached one, or
the response's when the cached one is empty), and the pushed tree — leaving
every other page's snapshot untouched. -/
theorem c8_cache_transactional (cache : List (String × Snapshot)) (pid : String)
    (s1 rc s2 : Nat) (eid etitle espace : String) :
    (storeGet cache pid = none →
      confluencePushPage cache pid s1 rc s2 eid etitle espace = (cache, .noCache)) ∧
    (∀ snap st, storeGet cache pid = some snap →
      (pushPageUpdate snap.version s1 rc s2).2 = .error st →
      confluencePushPage cache pid s1 rc s2 eid etitle espace = (cache, .pushFailed st)) ∧
    (∀ snap v, storeGet cache pid = some snap →
      (pushPageUpdate snap.version s1 rc s2).2 = .ok v →
      (confluencePushPage cache pid s1 rc s2 eid etitle espace).2 = .pushed v ∧
      storeGet (confluencePushPage cache pid s1 rc s2 eid etitle espace).1 eid =
        some { id := eid, title := etitle, version := v,
               spaceId := if snap.spaceId = "" then espace else snap.spaceId,
               adf := snap.adf } ∧
      (∀ k, k ≠ eid →
        storeGet (confluencePushPage cache pid s1 rc s2 eid etitle espace).1 k =
          storeGet cache k)) := by
  refine ⟨?_, ?_, ?_⟩
  · intro h
    simp [confluencePushPage, h]
  · intro snap st h hp
    simp [confluencePushPage, h, hp]
  · intro snap v h hp
    refine ⟨?_, ?_, ?_⟩
    · simp [confluencePushPage, h, hp]
    · simp [confluencePushPage, h, hp, storeGet_set_self]
    · intro k hk
      simp [confluencePushPage, h, hp, storeGet_set_ne cache eid k _ hk]

/-- The snapshot the test factories build (`make_page_response`). -/
def snapCex : Snapshot :=
  { id := "12345", title := "Test Page", version := 1, spaceId := "SPACE1",
    adf := docNode [paragraphS "Hello world"] }

theorem c8_cache_transactional_witness :
    (confluencePushPage [("12345", snapCex)] "12345" 409 3 200
        "12345" "Test Page" "").2 = .pushed 4 ∧
    storeGet (confluencePushPage [("12345", snapCex)] "12345" 409 3 200
        "12345" "Test Page" "").1 "12345" =
      some { id := "12345", title := "Test Page", version := 4, spaceId := "SPACE1",
             adf := docNode [paragraphS "Hello world"] } ∧
    confluencePushPage [("12345", snapCex)] "12345" 409 3 409 "12345" "Test Page" "" =
      ([("12345", snapCex)], .pushFailed 409) := by
  have h1 := (c8_cache_transactional [("12345", snapCex)] "12345" 409 3 200
      "12345" "Test Page" "").2.2 snapCex 4 (by rfl) (by rfl)
  have h2 := (c8_cache_transactional [("12345", snapCex)] "12345" 409 3 409
      "12345" "Test Page" "").2.1 snapCex 409 (by rfl) (by rfl)
  refine ⟨h1.1, ?_, h2⟩
  have h3 := h1.2.1
  simpa [snapCex] using h3

/-! ## C3: single-flight token refresh

Modelled from the spec: the token lifecycle manager (`_OAuthTokenManager`,
§4.5) is referenced by the repository's tests and fixtures but its code is
not present under `src/`, so `ensure_valid()` is modelled from the spec's
contract: a caller first reads the expiry state — if the token is valid it
returns the cached access token with no lock traffic; otherwise it awaits
the single-flight lock, re-checks validity inside the lock, performs the
refresh network call only if the token is still expired, installs and
persists the new token, and hands it out.  Scheduling is an arbitrary
interleaving of these atomic phases (more general than asyncio's
cooperative scheduling, so the guarantee proved here covers it). -/

/-- Modelled from the spec: the phase a single `ensure_valid()` caller is
in — not yet scheduled, holding the lock before the inside-the-lock expiry
re-check, performing the refresh network call while holding the lock, or
returned with an access token. A caller awaiting the lock stays in
`start`. -/
inductive CallerPhase
  | start
  | locked
  | refreshing
  | done (tok : String)
deriving DecidableEq

/-- Modelled from the spec: the manager's shared state — whether the stored
token is outside the expiry buffer, the access token itself, the number of
refresh network calls issued, and each caller's phase. -/
structure TMState (n : Nat) where
  valid : Bool
  token : String
  refreshes : Nat
  callers : Fin n → CallerPhase

/-- Modelled from the spec: one atomic phase transition of some caller.
`newTok` is the access token the token endpoint returns. -/
inductive TMStep (newTok : String) {n : Nat} : TMState n → TMState n → Prop
  | readValid (s : TMState n) (i : Fin n) :
      s.callers i = .start → s.valid = true →
      TMStep newTok s { s with callers := Function.update s.callers i (.done s.token) }
  | acquire (s : TMState n) (i : Fin n) :
      s.callers i = .start →
      (∀ j, s.callers j ≠ .locked ∧ s.callers j ≠ .refreshing) →
      TMStep newTok s { s with callers := Function.update s.callers i .locked }
  | beginRefresh (s : TMState n) (i : Fin n) :
      s.callers i = .locked → s.valid = false →
      TMStep newTok s { s with callers := Function.update s.callers i .refreshing,
                               refreshes := s.refreshes + 1 }
  | skipRefresh (s : TMState n) (i : Fin n) :
      s.callers i = .locked → s.valid = true →
      TMStep newTok s { s with callers := Function.update s.callers i (.done s.token) }
  | completeRefresh (s : TMState n) (i : Fin n) :
      s.callers i = .refreshing →
      TMStep newTok s { valid := true, token := newTok, refreshes := s.refreshes,
                        callers := Function.update s.callers i (.done newTok) }

/-- Modelled from the spec: the initial state — an expired seed token, no
refreshes, every caller unscheduled. -/
def initTM (n : Nat) (seed : String) : TMState n :=
  { valid := false, token := seed, refreshes := 0, callers := fun _ => .start }

/-- A caller holding the single-flight lock. -/
def Held (p : CallerPhase) : Prop := p = .locked ∨ p = .refreshing

/-- The inductive invariant: mutual exclusion on the lock; a valid token is
the refreshed one, obtained by exactly one network call, with no refresh in
flight; before validity the call count tracks the in-flight refresh; every
returned token is the refreshed one, and somebody returning means the
refresh completed. -/
def Inv (newTok : String) {n : Nat} (s : TMState n) : Prop :=
  (∀ i j, Held (s.callers i) → Held (s.callers j) → i = j) ∧
  (s.valid = true → s.token = newTok ∧ s.refreshes = 1 ∧
    ∀ i, s.callers i ≠ .refreshing) ∧
  (s.valid = false → (∀ i, s.callers i ≠ .refreshing) → s.refreshes = 0) ∧
  (s.valid = false → ∀ i, s.callers i = .refreshing → s.refreshes = 1) ∧
  (∀ i t, s.callers i = .done t → t = newTok) ∧
  (∀ i t, s.callers i = .done t → s.valid = true)

theorem inv_init (n : Nat) (seed newTok : String) : Inv newTok (initTM n seed) := by
  refine ⟨?_, ?_, ?_, ?_, ?_, ?_⟩
  · intro i j hi hj
    simp [initTM, Held] at hi
  · intro hv
    simp [initTM] at hv
  · intro _ _
    rfl
  · intro _ i hi
    simp [initTM] at hi
  · intro i t hi
    simp [initTM] at hi
  · intro i t hi
    simp [initTM] at hi

theorem inv_step {n : Nat} {newTok : String} {s s2 : TMState n}
    (hs : TMStep newTok s s2) (hi : Inv newTok s) : Inv newTok s2 := by
  obtain ⟨A, B, C, D, E, F⟩ := hi
  cases hs with
  | readValid i h1 h2 =>
    refine ⟨?_, ?_, ?_, ?_, ?_, ?_⟩
    · intro a b ha hb
      dsimp only at ha hb
      by_cases hai : a = i
      · subst hai
        rw [Function.update_same] at ha
        simp [Held] at ha
      · rw [Function.update_noteq hai] at ha
        by_cases hbi : b = i
        · subst hbi
          rw [Function.update_same] at hb
          simp [Held] at hb
        · rw [Function.update_noteq hbi] at hb
          exact A a b ha hb
    · intro hv
      dsimp only at hv ⊢
      obtain ⟨htok, href, hnoref⟩ := B hv
      refine ⟨htok, href, ?_⟩
      intro j
      by_cases hj : j = i
      · subst hj
        rw [Function.update_same]
        simp
      · rw [Function.update_noteq hj]
        exact hnoref j
    · intro hv
      dsimp only at hv
      rw [hv] at h2
      cases h2
    · intro hv
      dsimp only at hv
      rw [hv] at h2
      cases h2
    · intro j t hj
      dsimp only at hj
      by_cases hji : j = i
      · subst hji
        rw [Function.update_same] at hj
        cases hj
        exact (B h2).1
      · rw [Function.update_noteq hji] at hj
        exact E j t hj
    · intro j t hj
      dsimp only
      exact h2
  | acquire i h1 hfree =>
    refine ⟨?_, ?_, ?_, ?_, ?_, ?_⟩
    · intro a b ha hb
      dsimp only at ha hb
      by_cases hai : a = i
      · by_cases hbi : b = i
        · rw [hai, hbi]
        · rw [Function.update_noteq hbi] at hb
          cases hb with
          | inl h => exact absurd h (hfree b).1
          | inr h => exact absurd h (hfree b).2
      · rw [Function.update_noteq hai] at ha
        cases ha with
        | inl h => exact absurd h (hfree a).1
        | inr h => exact absurd h (hfree a).2
    · intro hv
      dsimp only at hv ⊢
      obtain ⟨htok, href, hnoref⟩ := B hv
      refine ⟨htok, href, ?_⟩
      intro j
      by_cases hj : j = i
      · subst hj
        rw [Function.update_same]
        simp
      · rw [Function.update_noteq hj]
        exact hnoref j
    · intro hv _
      dsimp only at hv ⊢
      exact C hv (fun j => (hfree j).2)
    · intro hv j hj
      dsimp only at hv hj
      by_cases hji : j = i
      · subst hji
        rw [Function.update_same] at hj
        cases hj
      · rw [Function.update_noteq hji] at hj
        exact absurd hj (hfree j).2
    · intro j t hj
      dsimp only at hj
      by_cases hji : j = i
      · subst hji
        rw [Function.update_same] at hj
        cases hj
      · rw [Function.update_noteq hji] at hj
        exact E j t hj
    · intro j t hj
      dsimp only at hj ⊢
      by_cases hji : j = i
      · subst hji
        rw [Function.update_same] at hj
        cases hj
      · rw [Function.update_noteq hji] at hj
        exact F j t hj
  | beginRefresh i h1 h2 =>
    have hnoref : ∀ j, s.callers j ≠ .refreshing := by
      intro j hj
      have hij := A i j (Or.inl h1) (Or.inr hj)
      rw [← hij] at hj
      rw [h1] at hj
      cases hj
    have href0 : s.refreshes = 0 := C h2 hnoref
    refine ⟨?_, ?_, ?_, ?_, ?_, ?_⟩
    · intro a b ha hb
      dsimp only at ha hb
      by_cases hai : a = i
      · by_cases hbi : b = i
        · rw [hai, hbi]
        · rw [Function.update_noteq hbi] at hb
          have hib := A i b (Or.inl h1) hb
          exact absurd hib.symm hbi
      · rw [Function.update_noteq hai] at ha
        have hia := A i a (Or.inl h1) ha
        exact absurd hia.symm hai
    · intro hv
      dsimp only at hv
      rw [hv] at h2
      cases h2
    · intro _ hall
      dsimp only at hall
      have := hall i
      rw [Function.update_same] at this
      exact absurd rfl this
    · intro _ j _
      dsimp only
      rw [href0]
    · intro j t hj
      dsimp only at hj
      by_cases hji : j = i
      · subst hji
        rw [Function.update_same] at hj
        cases hj
      · rw [Function.update_noteq hji] at hj
        exact E j t hj
    · intro j t hj
      dsimp only at hj ⊢
      by_cases hji : j = i
      · subst hji
        rw [Function.update_same] at hj
        cases hj
      · rw [Function.update_noteq hji] at hj
        exact F j t hj
  | skipRefresh i h1 h2 =>
    refine ⟨?_, ?_, ?_, ?_, ?_, ?_⟩
    · intro a b ha hb
      dsimp only at ha hb
      by_cases hai : a = i
      · subst hai
        rw [Function.update_same] at ha
        simp [Held] at ha
      · rw [Function.update_noteq hai] at ha
        by_cases hbi : b = i
        · subst hbi
          rw [Function.update_same] at hb
          simp [Held] at hb
        · rw [Function.update_noteq hbi] at hb
          exact A a b ha hb
    · intro hv
      dsimp only at hv ⊢
      obtain ⟨htok, href, hnoref⟩ := B hv
      refine ⟨htok, href, ?_⟩
      intro j
      by_cases hj : j = i
      · subst hj
        rw [Function.update_same]
        simp
      · rw [Function.update_noteq hj]
        exact hnoref j
    · intro hv
      dsimp only at hv
      rw [hv] at h2
      cases h2
    · intro hv
      dsimp only at hv
      rw [hv] at h2
      cases h2
    · intro j t hj
      dsimp only at hj
      by_cases hji : j = i
      · subst hji
        rw [Function.update_same] at hj
        cases hj
        exact (B h2).1
      · rw [Function.update_noteq hji] at hj
        exact E j t hj
    · intro j t hj
      dsimp only
      exact h2
  | completeRefresh i h1 =>
    have hv0 : s.valid = false := by
      cases hsv : s.valid with
      | false => rfl
      | true => exact absurd h1 ((B hsv).2.2 i)
    have href1 : s.refreshes = 1 := D hv0 i h1
    refine ⟨?_, ?_, ?_, ?_, ?_, ?_⟩
    · intro a b ha hb
      dsimp only at ha hb
      by_cases hai : a = i
      · subst hai
        rw [Function.update_same] at ha
        simp [Held] at ha
      · rw [Function.update_noteq hai] at ha
        by_cases hbi : b = i
        · subst hbi
          rw [Function.update_same] at hb
          simp [Held] at hb
        · rw [Function.update_noteq hbi] at hb
          exact A a b ha hb
    · intro _
      dsimp only
      refine ⟨rfl, href1, ?_⟩
      intro j
      by_cases hj : j = i
      · subst hj
        rw [Function.update_same]
        simp
      · rw [Function.update_noteq hj]
        intro hjr
        have hij := A i j (Or.inr h1) (Or.inr hjr)
        exact hj hij.symm
    · intro hv
      dsimp only at hv
      cases hv
    · intro hv
      dsimp only at hv
      cases hv
    · intro j t hj
      dsimp only at hj
      by_cases hji : j = i
      · subst hji
        rw [Function.update_same] at hj
        cases hj
        rfl
      · rw [Function.update_noteq hji] at hj
        exact E j t hj
    · intro j t hj
      rfl

theorem inv_reachable {n : Nat} {newTok : String} {s0 s : TMState n}
    (hr : Relation.ReflTransGen (TMStep newTok) s0 s) (h0 : Inv newTok s0) :
    Inv newTok s := by
  induction hr with
  | refl => exact h0
  | tail _ hstep ih => exact inv_step hstep ih

/-- C3: in the spec's token manager (modelled from the spec, the manager's
code being absent from `src/`), for every number of concurrent
`ensure_valid()` callers against an expired token and every interleaving of
their atomic phases, once every caller has returned, exactly one refresh
network call was issued and every caller received the same new access
token. -/
theorem c3_single_flight_refresh (n : Nat) (seed newTok : String) (s : TMState n)
    (hr : Relation.ReflTransGen (TMStep newTok) (initTM n seed) s)
    (hdone : ∀ i : Fin n, ∃ t, s.callers i = .done t) (hn : 0 < n) :
    s.refreshes = 1 ∧ ∀ i t, s.callers i = .done t → t = newTok := by
  have hi := inv_reachable hr (inv_init n seed newTok)
  obtain ⟨A, B, C, D, E, F⟩ := hi
  obtain ⟨t0, ht0⟩ := hdone ⟨0, hn⟩
  have hv := F _ _ ht0
  exact ⟨(B hv).2.1, E⟩

/-- The spec's three-caller scenario, step by step: caller 0 takes the
lock, refreshes, completes; callers 1 and 2 then read the refreshed
token. -/
def c3s0 : TMState 3 := initTM 3 "seed"

def c3s1 : TMState 3 :=
  { c3s0 with callers := Function.update c3s0.callers 0 CallerPhase.locked }

def c3s2 : TMState 3 :=
  { c3s1 with callers := Function.update c3s1.callers 0 CallerPhase.refreshing,
              refreshes := c3s1.refreshes + 1 }

def c3s3 : TMState 3 :=
  { valid := true, token := "newTok", refreshes := c3s2.refreshes,
    callers := Function.update c3s2.callers 0 (CallerPhase.done "newTok") }

def c3s4 : TMState 3 :=
  { c3s3 with callers := Function.update c3s3.callers 1 (CallerPhase.done c3s3.token) }

def c3s5 : TMState 3 :=
  { c3s4 with callers := Function.update c3s4.callers 2 (CallerPhase.done c3s4.token) }

theorem c3_single_flight_refresh_witness :
    c3s5.refreshes = 1 ∧ ∀ i t, c3s5.callers i = .done t → t = "newTok" := by
  have hreach : Relation.ReflTransGen (TMStep "newTok") (initTM 3 "seed") c3s5 := by
    refine Relation.ReflTransGen.head (TMStep.acquire c3s0 0 (by decide) (by decide)) ?_
    refine Relation.ReflTransGen.head (TMStep.beginRefresh c3s1 0 (by decide) (by decide)) ?_
    refine Relation.ReflTransGen.head (TMStep.completeRefresh c3s2 0 (by decide)) ?_
    refine Relation.ReflTransGen.head (TMStep.readValid c3s3 1 (by decide) (by decide)) ?_
    refine Relation.ReflTransGen.head (TMStep.readValid c3s4 2 (by decide) (by decide)) ?_
    exact Relation.ReflTransGen.refl
  have hdone : ∀ i : Fin 3, ∃ t, c3s5.callers i = .done t := by
    intro i
    fin_cases i
    · exact ⟨"newTok", by decide⟩
    · exact ⟨"newTok", by decide⟩
    · exact ⟨"newTok", by decide⟩
  exact c3_single_flight_refresh 3 "seed" "newTok" c3s5 hreach hdone (by decide)

end ConfluenceAdf
